import Mathlib

/-!
Verification development for the Auction-Architect roster-selection engine.

Shallow embedding of:
  * `Backend Auction/src/squad.py`   (`select_squad`)
  * `Backend Auction/src/model.py`   (`AuctionPriceModel.predict_prices`, price row rule)
  * `Backend Starting XI/app/selector.py` (`select_starting_xi`)

Modelling conventions:
  * Python floats are modelled by `ℚ`; a missing/NaN numeric cell is `Option ℚ`
    with `none` (any `<=` comparison against NaN is false in Python, which is
    modelled explicitly where it matters, e.g. `can_afford`).
  * `DataFrame.sort_values(col)` is modelled by a deterministic sort by the
    requested key (a stable insertion sort here).  The program calls
    `sort_values` with its default `kind='quicksort'` (numpy introsort), which
    is NOT guaranteed stable, so the relative order of equal-key rows in this
    model is a modelling choice, not a program guarantee.  No theorem below
    depends on it: every general theorem is quantified over arbitrary lists
    and concludes an order-independent property (counts, sums, membership,
    duplicate-freedom), and every concrete evaluation uses pairwise-distinct
    keys, for which any correct sort produces the same list.
  * `pd.DataFrame([])` (built from an empty list of selected rows) has no
    columns, so the final `sort_values("efficiency_score")` in `select_squad`
    raises `KeyError`; `select_squad` is therefore modelled as returning
    `Except String (List Row)`.
-/

namespace AuctionSpec

/-- Descending insertion step of the sort model: `a` is placed before the
first element whose key is `≤ key a`. -/
def insD {α : Type} (key : α → ℚ) (a : α) : List α → List α
  | [] => [a]
  | x :: xs => if key x ≤ key a then a :: x :: xs else x :: insD key a xs

/-- Model of `DataFrame.sort_values(col, ascending=False)`: a deterministic
descending sort by the key.  See the header comment: the program uses numpy
quicksort, so only key-descending order — never the tie order — may be relied
on, and no theorem in this file relies on the tie order. -/
def sortD {α : Type} (key : α → ℚ) : List α → List α
  | [] => []
  | a :: l => insD key a (sortD key l)

/-- Model of `DataFrame.sort_values(col, ascending=True)`: ascending sort,
obtained by sorting descending on the negated key. -/
def sortA {α : Type} (key : α → ℚ) (l : List α) : List α :=
  sortD (fun a => -(key a)) l

/-! ## Data model for `select_squad` (Backend Auction/src/squad.py)

One row of the prediction DataFrame, restricted to the columns that
`select_squad` reads.  `score` is `efficiency_score`, `price` is
`predicted_price`; `none` models a missing/NaN cell.  `outcome` is
`predicted_auction_outcome` and `bucket` is `country_bucket`. -/

structure Row where
  name : String
  year : Int
  outcome : String
  bucket : String
  role : String
  score : Option ℚ
  price : Option ℚ
deriving DecidableEq

/-- Sort key used by `sort_values("efficiency_score", ascending=False)`.
Every row that reaches a sort in `select_squad` has passed the
`efficiency_score.notna()` eligibility filter, so the `getD` default is never
exercised on candidate rows. -/
def scoreKey (r : Row) : ℚ := r.score.getD 0

/-- `row_key(r) = (r["name"], r["year"])` from squad.py. -/
def rowKey (r : Row) : String × Int := (r.name, r.year)

/-- `can_afford(price)` from squad.py: `spent + price <= total_purse`.
A NaN price makes the Python comparison `False`, modelled by the `none`
case. -/
def canAfford (spent totalPurse : ℚ) (price : Option ℚ) : Prop :=
  match price with
  | none => False
  | some p => spent + p ≤ totalPurse

instance decCanAfford (spent totalPurse : ℚ) :
    (price : Option ℚ) → Decidable (canAfford spent totalPurse price)
  | none => isFalse (fun h => h)
  | some p => inferInstanceAs (Decidable (spent + p ≤ totalPurse))

/-- Mutable selection state of `select_squad`: `selected_rows`, `spent`,
`overseas_count`.  The Python `selected_keys` set always equals the set of
`row_key`s of `selected_rows` from the moment it is built (end of phase 1),
so it is modelled as the derived list `selected.map rowKey`. -/
structure SqState where
  selected : List Row
  spent : ℚ
  overseas : Nat
deriving DecidableEq

/-- Phase 1 of `select_squad`: iterate overseas candidates by descending
score; `break` once `overseas_count >= min_overseas`; otherwise add the row
when it is affordable, the squad is not full and `overseas_count <
max_overseas`. -/
def phase1 (totalPurse : ℚ) (squadSize maxOverseas minOverseas : Int) :
    List Row → SqState → SqState
  | [], s => s
  | r :: rs, s =>
    if (s.overseas : Int) ≥ minOverseas then s
    else if canAfford s.spent totalPurse r.price ∧
        (s.selected.length : Int) < squadSize ∧ (s.overseas : Int) < maxOverseas then
      phase1 totalPurse squadSize maxOverseas minOverseas rs
        ⟨s.selected ++ [r], s.spent + r.price.getD 0, s.overseas + 1⟩
    else phase1 totalPurse squadSize maxOverseas minOverseas rs s

/-- Inner loop of phase 2 for one role list: add each not-yet-selected,
affordable row while the squad is not full, breaking out as soon as the squad
fills up.  Note the Python loop ignores the role minimum `needed`. -/
def phase2Role (totalPurse : ℚ) (squadSize : Int) :
    List Row → SqState → SqState
  | [], s => s
  | r :: rs, s =>
    if rowKey r ∉ s.selected.map rowKey ∧ canAfford s.spent totalPurse r.price ∧
        (s.selected.length : Int) < squadSize then
      let sNew : SqState :=
        ⟨s.selected ++ [r], s.spent + r.price.getD 0, s.overseas⟩
      if (sNew.selected.length : Int) ≥ squadSize then sNew
      else phase2Role totalPurse squadSize rs sNew
    else phase2Role totalPurse squadSize rs s

/-- Phase 2 of `select_squad`: for each `(role, needed)` pair in declared
order, run the inner loop over domestic candidates of that role, breaking when
the squad is full. -/
def phase2 (totalPurse : ℚ) (squadSize : Int) (candidates : List Row) :
    List (String × Int) → SqState → SqState
  | [], s => s
  | (role, _needed) :: rest, s =>
    let roleCands :=
      candidates.filter (fun r => r.bucket == "Indian" && r.role == role)
    let sNew := phase2Role totalPurse squadSize roleCands s
    if (sNew.selected.length : Int) ≥ squadSize then sNew
    else phase2 totalPurse squadSize candidates rest sNew

/-- Phase 3 of `select_squad`: efficiency-ordered filling with domestic
candidates, with the fullness check at the end of each iteration. -/
def phase3 (totalPurse : ℚ) (squadSize : Int) :
    List Row → SqState → SqState
  | [], s => s
  | r :: rs, s =>
    let sNew : SqState :=
      if rowKey r ∉ s.selected.map rowKey ∧ canAfford s.spent totalPurse r.price ∧
          (s.selected.length : Int) < squadSize then
        ⟨s.selected ++ [r], s.spent + r.price.getD 0, s.overseas⟩
      else s
    if (sNew.selected.length : Int) ≥ squadSize then sNew
    else phase3 totalPurse squadSize rs sNew

/-- Default `role_requirements` dict of `select_squad` (Python dicts preserve
insertion order, so the dict is an ordered association list). -/
def defaultRoleRequirements : List (String × Int) :=
  [("Batter", 3), ("Bowler", 3), ("Allrounder", 2)]

/-- The eligibility filter and descending-score sort building `candidates`:
`df[(df["year"] == year) & (df["predicted_auction_outcome"] == "SOLD") &
df["efficiency_score"].notna()]` followed by
`sort_values("efficiency_score", ascending=False)`. -/
def squadCandidates (df : List Row) (year : Int) : List Row :=
  sortD scoreKey (df.filter
    (fun r => r.year == year && r.outcome == "SOLD" && r.score.isSome))

/-- The selection state after the three phases of `select_squad`. -/
def squadFinalState (df : List Row) (year : Int) (totalPurse : ℚ)
    (squadSize maxOverseas minOverseas : Int)
    (roleRequirements : List (String × Int)) : SqState :=
  let candidates := squadCandidates df year
  let overseasCandidates := candidates.filter (fun r => r.bucket == "Overseas")
  let s1 := phase1 totalPurse squadSize maxOverseas minOverseas
    overseasCandidates ⟨[], 0, 0⟩
  let s2 := phase2 totalPurse squadSize candidates roleRequirements s1
  let fillerCands := candidates.filter (fun r => r.bucket == "Indian")
  phase3 totalPurse squadSize fillerCands s2

/-- `select_squad` from squad.py.  Returns `Except` because the trailing
`pd.DataFrame(selected_rows).sort_values("efficiency_score")` raises a
`KeyError` when `selected_rows` is empty: `pd.DataFrame([])` has no columns,
so the sort column does not exist. -/
def select_squad (df : List Row) (year : Int) (totalPurse : ℚ)
    (squadSize maxOverseas minOverseas : Int)
    (roleRequirements : List (String × Int)) : Except String (List Row) :=
  if (squadFinalState df year totalPurse squadSize maxOverseas minOverseas
      roleRequirements).selected.isEmpty then
    .error "KeyError: efficiency_score"
  else
    .ok (sortD scoreKey (squadFinalState df year totalPurse squadSize
      maxOverseas minOverseas roleRequirements).selected)

/-- Total predicted cost of a roster (`sum` over `predicted_price`; every
selected row has a present price because `can_afford` rejects NaN). -/
def rosterCost (l : List Row) : ℚ := (l.map (fun r => r.price.getD 0)).sum

/-- Number of overseas rows in a roster
(`(squad_df["country_bucket"] == "Overseas").sum()`). -/
def countOvRows (l : List Row) : Nat := l.countP (fun r => r.bucket == "Overseas")

/-! ## Data model for `select_starting_xi` (Backend Starting XI/app/selector.py)

The selector consumes `df_team`, the output of `compute_scores_for_team`
(scoring.py), which carries `Player`, `Paying_Role`, a finite `final_score`
(scoring.py is NaN-safe by construction), `is_overseas = COUNTRY != "IND"` and
`is_keeper = Player.isin(WICKET_KEEPERS)`.  Scoring and the pitch/venue
resolution (`get_pitch_info_smart`, whose module is not part of the selection
engine) happen upstream, so the embedding takes `df_team` and the resolved
`pitch_type` as inputs. -/

structure Player where
  name : String
  payingRole : String
  finalScore : ℚ
  isKeeper : Bool
  isOverseas : Bool
deriving DecidableEq

/-- Model of Python `str.strip()`: drop whitespace from both ends of the
string. -/
def pyStrip (s : String) : String :=
  ⟨((s.data.dropWhile Char.isWhitespace).reverse.dropWhile
    Char.isWhitespace).reverse⟩

/-- `df_team["role"] = df_team["Paying_Role"].astype(str).str.strip()`. -/
def playerRole (p : Player) : String := pyStrip p.payingRole

/-- `is_bowler_spec`: `role == "Bowling"`. -/
def isBowlerSpec (p : Player) : Bool := playerRole p == "Bowling"

/-- `is_allrounder`: `role == "All rounder"`. -/
def isAllrounder (p : Player) : Bool := playerRole p == "All rounder"

/-- Sort key for `sort_values("final_score", ...)`. -/
def fsKey (p : Player) : ℚ := p.finalScore

def MIN_SPECIAL_BOWLERS : Nat := 4

def MAX_SPECIAL_BOWLERS : Nat := 6

def MIN_ALLROUNDERS_IF_4 : Nat := 2

/-- `_recompute_counts`: role/flag counts of the current XI. -/
structure Counts where
  bowlers : Nat
  allrounders : Nat
  keepers : Nat
  overseas : Nat
deriving DecidableEq

def recomputeCounts (xi : List Player) : Counts :=
  ⟨xi.countP isBowlerSpec, xi.countP isAllrounder,
   xi.countP (fun p => p.isKeeper), xi.countP (fun p => p.isOverseas)⟩

/-- `overseas_after = overseas_count - int(out["is_overseas"]) + int(in["is_overseas"])`. -/
def overseasAfter (overseasCount : Nat) (outP inP : Player) : Int :=
  (overseasCount : Int) - (if outP.isOverseas then 1 else 0) +
    (if inP.isOverseas then 1 else 0)

/-- The swap block repeated verbatim in each repair branch of selector.py:
drop `out_name` from the XI, concat the incoming row and re-sort by descending
score; drop `in_name` from the bench and concat the outgoing row (unsorted). -/
def swapXI (xi rem : List Player) (inP outP : Player) :
    List Player × List Player :=
  (sortD fsKey ((xi.filter (fun p => !(p.name == outP.name))) ++ [inP]),
   (rem.filter (fun p => !(p.name == inP.name))) ++ [outP])

/-- First candidate-out (scanned in list order) whose swap with `inP` keeps
the overseas count within the cap. -/
def findSwapOut (overseasCount : Nat) (maxOverseas : Int) (inP : Player)
    (outs : List Player) : Option Player :=
  outs.find? (fun o => decide (overseasAfter overseasCount o inP ≤ maxOverseas))

/-- Seed-fill loop of step 4: walk the team by descending score, break at 11
names, skip already-selected names, skip overseas players once the cap is
reached.  State is (`selected_names`, `overseas_count`). -/
def fillLoop (maxOverseas : Int) :
    List Player → List String × Nat → List String × Nat
  | [], st => st
  | r :: rs, (names, ov) =>
    if names.length ≥ 11 then (names, ov)
    else if r.name ∈ names then fillLoop maxOverseas rs (names, ov)
    else if r.isOverseas ∧ (ov : Int) ≥ maxOverseas then
      fillLoop maxOverseas rs (names, ov)
    else fillLoop maxOverseas rs
      (names ++ [r.name], if r.isOverseas then ov + 1 else ov)

/-- Keeper lock of step 4: the top keeper (if any) is put into the selection
first, regardless of the overseas cap, and counted toward `overseas_count`. -/
def seedStart (dfTeam : List Player) : List String × Nat :=
  match sortD fsKey (dfTeam.filter (fun p => p.isKeeper)) with
  | [] => ([], 0)
  | k :: _ => ([k.name], if k.isOverseas then 1 else 0)

/-- Step 4 of `select_starting_xi`: lock the top keeper (if any), then fill by
descending score under the cap. -/
def seedNames (dfTeam : List Player) (maxOverseas : Int) : List String × Nat :=
  fillLoop maxOverseas (sortD fsKey dfTeam) (seedStart dfTeam)

/-- `xi_df`: rows of the team whose name was selected, sorted by descending
score. -/
def seedXI (dfTeam : List Player) (maxOverseas : Int) : List Player :=
  sortD fsKey (dfTeam.filter
    (fun p => (seedNames dfTeam maxOverseas).1.contains p.name))

/-- `remaining`: rows of the team not selected by the seed (team order). -/
def seedRem (dfTeam : List Player) (maxOverseas : Int) : List Player :=
  dfTeam.filter (fun p => !((seedNames dfTeam maxOverseas).1.contains p.name))

/-- Inner `for _n in range(needed)` loop of Case A (too few bowlers): swap the
best unused specialist bowler in for the weakest non-bowler non-keeper
incumbent whose removal keeps the overseas count within the cap. -/
def caseAInner (maxOverseas : Int) :
    Nat → List Player → List Player → Bool →
      List Player × List Player × Bool
  | 0, xi, rem, changed => (xi, rem, changed)
  | n + 1, xi, rem, changed =>
    let c := recomputeCounts xi
    if c.bowlers ≥ MIN_SPECIAL_BOWLERS then (xi, rem, changed)
    else
      match sortD fsKey (rem.filter isBowlerSpec) with
      | [] => (xi, rem, changed)
      | inP :: _ =>
        let outs := sortA fsKey
          (xi.filter (fun p => !(isBowlerSpec p) && !p.isKeeper))
        match findSwapOut c.overseas maxOverseas inP outs with
        | none => (xi, rem, changed)
        | some outP =>
          let pr := swapXI xi rem inP outP
          caseAInner maxOverseas n pr.1 pr.2 true

/-- Inner `for _n in range(excess)` loop of Case B (too many bowlers): swap the
weakest non-keeper incumbent bowler out for the best unused non-bowler that
keeps the overseas count within the cap. -/
def caseBInner (maxOverseas : Int) :
    Nat → List Player → List Player → Bool →
      List Player × List Player × Bool
  | 0, xi, rem, changed => (xi, rem, changed)
  | n + 1, xi, rem, changed =>
    let c := recomputeCounts xi
    if c.bowlers ≤ MAX_SPECIAL_BOWLERS then (xi, rem, changed)
    else
      match sortA fsKey (xi.filter (fun p => isBowlerSpec p && !p.isKeeper)) with
      | [] => (xi, rem, changed)
      | outP :: _ =>
        let ins := sortD fsKey (rem.filter (fun p => !(isBowlerSpec p)))
        match ins.find?
            (fun i => decide (overseasAfter c.overseas outP i ≤ maxOverseas)) with
        | none => (xi, rem, changed)
        | some inP =>
          let pr := swapXI xi rem inP outP
          caseBInner maxOverseas n pr.1 pr.2 true

/-- Step 5 of `select_starting_xi`: the bowler-band repair loop, bounded by
`max_iters = 20`, re-running Case A / Case B until the band `[4, 6]` holds, a
pre-check finds no material, or an iteration makes no change. -/
def repairLoop (maxOverseas : Int) :
    Nat → List Player → List Player → List Player × List Player
  | 0, xi, rem => (xi, rem)
  | fuel + 1, xi, rem =>
    let c := recomputeCounts xi
    if c.bowlers < MIN_SPECIAL_BOWLERS then
      if (rem.filter isBowlerSpec).isEmpty then (xi, rem)
      else
        let res := caseAInner maxOverseas (MIN_SPECIAL_BOWLERS - c.bowlers)
          xi rem false
        if res.2.2 then repairLoop maxOverseas fuel res.1 res.2.1
        else (res.1, res.2.1)
    else if c.bowlers > MAX_SPECIAL_BOWLERS then
      if (xi.filter (fun p => isBowlerSpec p && !p.isKeeper)).isEmpty then
        (xi, rem)
      else
        let res := caseBInner maxOverseas (c.bowlers - MAX_SPECIAL_BOWLERS)
          xi rem false
        if res.2.2 then repairLoop maxOverseas fuel res.1 res.2.1
        else (res.1, res.2.1)
    else (xi, rem)

/-- Inner `for _ in range(needed_ar)` loop of step 6: swap the best unused
allrounder in for the weakest incumbent pure batter (not allrounder, not
bowler, not keeper), respecting the overseas cap. -/
def arRepairInner (maxOverseas : Int) :
    Nat → List Player → List Player → List Player × List Player
  | 0, xi, rem => (xi, rem)
  | n + 1, xi, rem =>
    let c := recomputeCounts xi
    if c.allrounders ≥ MIN_ALLROUNDERS_IF_4 then (xi, rem)
    else
      match sortD fsKey (rem.filter isAllrounder) with
      | [] => (xi, rem)
      | inP :: _ =>
        let outs := sortA fsKey (xi.filter
          (fun p => !(isAllrounder p) && !(isBowlerSpec p) && !p.isKeeper))
        if outs.isEmpty then (xi, rem)
        else
          match findSwapOut c.overseas maxOverseas inP outs with
          | none => (xi, rem)
          | some outP =>
            let pr := swapXI xi rem inP outP
            arRepairInner maxOverseas n pr.1 pr.2

/-- Step 6 of `select_starting_xi`: the allrounder rule fires only when the
XI holds exactly `MIN_SPECIAL_BOWLERS` bowlers and fewer than two
allrounders. -/
def arRepair (maxOverseas : Int) (xi rem : List Player) :
    List Player × List Player :=
  let c := recomputeCounts xi
  if c.bowlers = MIN_SPECIAL_BOWLERS ∧ c.allrounders < MIN_ALLROUNDERS_IF_4 then
    arRepairInner maxOverseas (MIN_ALLROUNDERS_IF_4 - c.allrounders) xi rem
  else (xi, rem)

/-- Step 7 of `select_starting_xi`: if the XI has no keeper but the team does,
force the best keeper in for the weakest non-keeper whose removal keeps the
overseas count within the cap. -/
def keeperFix (maxOverseas : Int) (dfTeam xi rem : List Player) :
    List Player × List Player :=
  let c := recomputeCounts xi
  if c.keepers = 0 then
    match sortD fsKey (dfTeam.filter (fun p => p.isKeeper)) with
    | [] => (xi, rem)
    | bestKeeper :: _ =>
      if (xi.map Player.name).contains bestKeeper.name then (xi, rem)
      else
        let outs := sortA fsKey (xi.filter (fun p => !p.isKeeper))
        match findSwapOut c.overseas maxOverseas bestKeeper outs with
        | none => (xi, rem)
        | some outP => swapXI xi rem bestKeeper outP
  else (xi, rem)

/-- Step 9 of `select_starting_xi`: impact player from the bench, preferring
bowling roles on a bowling pitch and batting roles otherwise, falling back to
the best-scoring bench player. -/
def pickImpact (pitchType : String) (dfTeam xi : List Player) : Option Player :=
  let remaining :=
    dfTeam.filter (fun p => !((xi.map Player.name).contains p.name))
  if remaining.isEmpty then none
  else
    let preferred :=
      if pitchType == "bowling" then
        sortD fsKey (remaining.filter
          (fun p => playerRole p == "Bowling" || playerRole p == "All rounder"))
      else
        sortD fsKey (remaining.filter
          (fun p => playerRole p == "Batting" || playerRole p == "All rounder"))
    match preferred with
    | [] => (sortD fsKey remaining).head?
    | i :: _ => some i

/-- `select_starting_xi` from selector.py, taking the scored team `df_team`
and the resolved `pitch_type` as inputs (scoring and venue resolution are
upstream collaborators).  Returns the XI and the impact player. -/
def select_starting_xi (dfTeam : List Player) (pitchType : String)
    (maxOverseas : Int) : List Player × Option Player :=
  if dfTeam.isEmpty then ([], none)
  else
    let xi0 := seedXI dfTeam maxOverseas
    let rem0 := seedRem dfTeam maxOverseas
    if xi0.isEmpty then ([], none)
    else
      let pr1 := repairLoop maxOverseas 20 xi0 rem0
      let pr2 := arRepair maxOverseas pr1.1 pr1.2
      let pr3 := keeperFix maxOverseas dfTeam pr2.1 pr2.2
      let xiF := sortD fsKey pr3.1
      (xiF, pickImpact pitchType dfTeam xiF)

/-! ## Invariants of the `select_squad` phases -/

/-- Budget invariant: `spent` mirrors the cost of the selected rows and never
exceeds the purse. -/
def BudgetOK (totalPurse : ℚ) (s : SqState) : Prop :=
  s.spent = rosterCost s.selected ∧ s.spent ≤ totalPurse

/-- Overseas invariant: `overseas_count` mirrors the overseas rows selected
and never exceeds `max_overseas`. -/
def OverOK (maxOverseas : Int) (s : SqState) : Prop :=
  (s.overseas : Int) = (countOvRows s.selected : Int) ∧
    (s.overseas : Int) ≤ maxOverseas

/-- Bucket invariant: every selected row sits in one of the two closed
nationality buckets the phases filter on. -/
def BucketsOK (s : SqState) : Prop :=
  ∀ r ∈ s.selected, r.bucket = "Overseas" ∨ r.bucket = "Indian"

/-- Concrete three-row pool used by witnesses and counterexamples. -/
def rowA : Row := ⟨"A", 2025, "SOLD", "Indian", "Batter", some 5, some 10⟩

def rowB : Row := ⟨"B", 2025, "SOLD", "Overseas", "Bowler", some 9, some 20⟩

def rowC : Row := ⟨"C", 2025, "SOLD", "Indian", "Allrounder", some 7, some 10⟩

def testPool : List Row := [rowA, rowB, rowC]

/-- Per-row pricing rule of `AuctionPriceModel.predict_prices` (model.py):
`price_ensemble = 0.5 * price_lgbm + 0.5 * price_knn` followed by
`np.maximum(price_ensemble, base_price.fillna(0))`.  The two arguments are
the LightGBM and KNN log-space predictions already mapped back through
`expm1` (the regressors themselves are opaque external models). -/
def predictedPrice (priceLgbm priceKnn : ℚ) (basePrice : Option ℚ) : ℚ :=
  max (1 / 2 * priceLgbm + 1 / 2 * priceKnn) (basePrice.getD 0)

/-- The group of facts maintained across the repair passes: the XI and the
bench have no duplicate names, share no name, and together are a permutation
of the scored team. -/
structure XIfacts (dfTeam xi rem : List Player) : Prop where
  ndXi : (xi.map Player.name).Nodup
  ndRem : (rem.map Player.name).Nodup
  disj : ∀ n, n ∈ xi.map Player.name → n ∉ rem.map Player.name
  perm : List.Perm (xi ++ rem) dfTeam

/-- Overseas-cap predicate on an XI. -/
def capOK (maxOverseas : Int) (xi : List Player) : Prop :=
  ((xi.countP fun p => p.isOverseas : Nat) : Int) ≤ maxOverseas

/-- Invariant carried through the seed-fill loop: the running
`overseas_count` equals the overseas count of the name-selected sub-team and
stays within the cap. -/
def FillInv (dfTeam : List Player) (maxOverseas : Int)
    (st : List String × Nat) : Prop :=
  st.2 = (dfTeam.filter (fun p => st.1.contains p.name)).countP
      (fun p => p.isOverseas) ∧
    (st.2 : Int) ≤ maxOverseas

/-- Concrete 12-player team: an overseas keeper with the top score plus 11
domestic batters. -/
def xiPoolC1 : List Player :=
  [⟨"K", "Batting", 100, true, true⟩,
   ⟨"D1", "Batting", 90, false, false⟩,
   ⟨"D2", "Batting", 89, false, false⟩,
   ⟨"D3", "Batting", 88, false, false⟩,
   ⟨"D4", "Batting", 87, false, false⟩,
   ⟨"D5", "Batting", 86, false, false⟩,
   ⟨"D6", "Batting", 85, false, false⟩,
   ⟨"D7", "Batting", 84, false, false⟩,
   ⟨"D8", "Batting", 83, false, false⟩,
   ⟨"D9", "Batting", 82, false, false⟩,
   ⟨"DA", "Batting", 81, false, false⟩,
   ⟨"DB", "Batting", 80, false, false⟩]

/-- Concrete 13-player team used for the C8 scenario and for witnesses: a
domestic keeper, four specialist bowlers, one allrounder and five batters fill
the XI; the bench holds a second allrounder and a batter. -/
def xiPoolC8 : List Player :=
  [⟨"K", "Batting", 100, true, false⟩,
   ⟨"B1", "Bowling", 90, false, false⟩,
   ⟨"B2", "Bowling", 89, false, false⟩,
   ⟨"B3", "Bowling", 88, false, false⟩,
   ⟨"B4", "Bowling", 87, false, false⟩,
   ⟨"A1", "All rounder", 86, false, false⟩,
   ⟨"T1", "Batting", 85, false, false⟩,
   ⟨"T2", "Batting", 84, false, false⟩,
   ⟨"T3", "Batting", 83, false, false⟩,
   ⟨"T4", "Batting", 82, false, false⟩,
   ⟨"T5", "Batting", 81, false, false⟩,
   ⟨"A2", "All rounder", 50, false, false⟩,
   ⟨"T6", "Batting", 40, false, false⟩]

/-! ## Theorems -/

theorem perm_insD {α : Type} (key : α → ℚ) (a : α) (l : List α) :
    List.Perm (insD key a l) (a :: l) := by
  induction l with
  | nil => simp [insD]
  | cons x xs ih =>
    by_cases h : key x ≤ key a
    · simp [insD, h]
    · simp only [insD, if_neg h]
      exact List.Perm.trans (List.Perm.cons x ih) (List.Perm.swap a x xs)

theorem perm_sortD {α : Type} (key : α → ℚ) (l : List α) :
    List.Perm (sortD key l) l := by
  induction l with
  | nil => simp [sortD]
  | cons a l ih =>
    exact List.Perm.trans (perm_insD key a (sortD key l)) (List.Perm.cons a ih)

theorem perm_sortA {α : Type} (key : α → ℚ) (l : List α) :
    List.Perm (sortA key l) l :=
  perm_sortD (fun a => -(key a)) l

theorem sorted_insD {α : Type} (key : α → ℚ) (a : α) (l : List α)
    (h : List.Pairwise (fun x y => key y ≤ key x) l) :
    List.Pairwise (fun x y => key y ≤ key x) (insD key a l) := by
  induction l with
  | nil => simp [insD]
  | cons x xs ih =>
    rcases List.pairwise_cons.mp h with ⟨hx, hxs⟩
    by_cases hxa : key x ≤ key a
    · simp only [insD, if_pos hxa]
      refine List.pairwise_cons.mpr ⟨?_, h⟩
      intro b hb
      rcases List.mem_cons.mp hb with hb1 | hb1
      · exact hb1 ▸ hxa
      · exact le_trans (hx b hb1) hxa
    · simp only [insD, if_neg hxa]
      refine List.pairwise_cons.mpr ⟨?_, ih hxs⟩
      intro b hb
      have hb2 := (perm_insD key a xs).mem_iff.mp hb
      rcases List.mem_cons.mp hb2 with hb3 | hb3
      · subst hb3; exact le_of_not_le hxa
      · exact hx b hb3

theorem sorted_sortD {α : Type} (key : α → ℚ) (l : List α) :
    List.Pairwise (fun x y => key y ≤ key x) (sortD key l) := by
  induction l with
  | nil => simp [sortD]
  | cons a l ih => exact sorted_insD key a (sortD key l) ih

/-- Inserting into a descending-sorted list commutes with `filter`:
if `a` survives the filter it is inserted into the filtered list, otherwise
the filtered list is unchanged.  Sortedness of `l` is needed: every element
that `insD` walks past has a key strictly greater than `key a`, so among the
surviving elements `a` still lands in front of exactly the `≤ key a` ones. -/
theorem filter_insD {α : Type} (key : α → ℚ) (p : α → Bool) (a : α) (l : List α)
    (hs : List.Pairwise (fun x y => key y ≤ key x) l) :
    (insD key a l).filter p =
      if p a then insD key a (l.filter p) else l.filter p := by
  induction l with
  | nil => cases hpa : p a <;> simp [insD, List.filter, hpa]
  | cons x xs ih =>
    rcases List.pairwise_cons.mp hs with ⟨hx, hxs⟩
    by_cases hxa : key x ≤ key a
    · cases hpa : p a with
      | true =>
        cases hpx : p x with
        | true => simp [insD, hxa, List.filter, hpa, hpx]
        | false =>
          simp only [insD, if_pos hxa, List.filter, hpa, hpx, if_pos]
          have hfilter : ∀ m : List α, (∀ b ∈ m, key b ≤ key a) →
              insD key a m = a :: m := by
            intro m hm
            cases m with
            | nil => rfl
            | cons y ys => simp [insD, hm y (by simp)]
          rw [hfilter (xs.filter p) ?_]
          intro b hb
          exact le_trans (hx b (List.mem_of_mem_filter hb)) hxa
      | false => simp [insD, hxa, List.filter, hpa]
    · cases hpx : p x with
      | true =>
        cases hpa : p a with
        | true =>
          simp only [insD, if_neg hxa, List.filter, hpx, hpa] at *
          rw [ih hxs]
          simp [insD, hpa, hxa]
        | false =>
          simp only [insD, if_neg hxa, List.filter, hpx, hpa] at *
          rw [ih hxs]
          simp [hpa]
      | false =>
        simp only [insD, if_neg hxa, List.filter, hpx] at *
        rw [ih hxs]

/-- Stable sorting commutes with `filter`. -/
theorem filter_sortD {α : Type} (key : α → ℚ) (p : α → Bool) (l : List α) :
    (sortD key l).filter p = sortD key (l.filter p) := by
  induction l with
  | nil => simp [sortD]
  | cons a l ih =>
    simp only [sortD]
    rw [filter_insD key p a (sortD key l) (sorted_sortD key l), ih]
    cases hpa : p a with
    | true => simp [List.filter, hpa, sortD]
    | false => simp [List.filter, hpa]

theorem rosterCost_append (l : List Row) (r : Row) :
    rosterCost (l ++ [r]) = rosterCost l + r.price.getD 0 := by
  simp [rosterCost]

theorem countOvRows_append (l : List Row) (r : Row) :
    countOvRows (l ++ [r]) =
      countOvRows l + (if r.bucket == "Overseas" then 1 else 0) := by
  simp [countOvRows, List.countP_append, List.countP_cons]

theorem canAfford_some {spent totalPurse : ℚ} {price : Option ℚ}
    (h : canAfford spent totalPurse price) :
    ∃ p, price = some p ∧ spent + p ≤ totalPurse := by
  cases price with
  | none => exact h.elim
  | some p => exact ⟨p, rfl, h⟩

theorem phase1_budget (totalPurse : ℚ) (squadSize maxOverseas minOverseas : Int) :
    ∀ (l : List Row) (s : SqState), BudgetOK totalPurse s →
      BudgetOK totalPurse (phase1 totalPurse squadSize maxOverseas minOverseas l s) := by
  intro l
  induction l with
  | nil => intro s hs; simpa [phase1] using hs
  | cons r rs ih =>
    intro s hs
    rw [phase1]
    by_cases h1 : (s.overseas : Int) ≥ minOverseas
    · simpa [h1] using hs
    · rw [if_neg h1]
      by_cases h2 : canAfford s.spent totalPurse r.price ∧
          (s.selected.length : Int) < squadSize ∧ (s.overseas : Int) < maxOverseas
      · rw [if_pos h2]
        rcases canAfford_some h2.1 with ⟨p, hp, hle⟩
        refine ih _ ⟨?_, ?_⟩
        · simp only [rosterCost_append, hs.1]
        · simpa [hp] using hle
      · rw [if_neg h2]; exact ih _ hs

theorem phase1_over (totalPurse : ℚ) (squadSize maxOverseas minOverseas : Int) :
    ∀ (l : List Row) (s : SqState),
      (∀ r ∈ l, r.bucket == "Overseas") → OverOK maxOverseas s →
      OverOK maxOverseas (phase1 totalPurse squadSize maxOverseas minOverseas l s) := by
  intro l
  induction l with
  | nil => intro s _ hs; simpa [phase1] using hs
  | cons r rs ih =>
    intro s hl hs
    obtain ⟨hs1, hs2⟩ := hs
    rw [phase1]
    by_cases h1 : (s.overseas : Int) ≥ minOverseas
    · rw [if_pos h1]; exact ⟨hs1, hs2⟩
    · rw [if_neg h1]
      by_cases h2 : canAfford s.spent totalPurse r.price ∧
          (s.selected.length : Int) < squadSize ∧ (s.overseas : Int) < maxOverseas
      · rw [if_pos h2]
        have hr : r.bucket == "Overseas" := hl r (by simp)
        have hlt := h2.2.2
        refine ih _ (fun x hx => hl x (by simp [hx])) ⟨?_, ?_⟩
        · simp only [countOvRows_append, hr, if_pos]
          push_cast
          omega
        · push_cast
          omega
      · rw [if_neg h2]; exact ih _ (fun x hx => hl x (by simp [hx])) ⟨hs1, hs2⟩

theorem phase2Role_budget (totalPurse : ℚ) (squadSize : Int) :
    ∀ (l : List Row) (s : SqState), BudgetOK totalPurse s →
      BudgetOK totalPurse (phase2Role totalPurse squadSize l s) := by
  intro l
  induction l with
  | nil => intro s hs; simpa [phase2Role] using hs
  | cons r rs ih =>
    intro s hs
    rw [phase2Role]
    by_cases h1 : rowKey r ∉ s.selected.map rowKey ∧
        canAfford s.spent totalPurse r.price ∧ (s.selected.length : Int) < squadSize
    · rw [if_pos h1]
      rcases canAfford_some h1.2.1 with ⟨p, hp, hle⟩
      have hnew : BudgetOK totalPurse
          ⟨s.selected ++ [r], s.spent + r.price.getD 0, s.overseas⟩ := by
        constructor
        · simp only [rosterCost_append, hs.1]
        · simpa [hp] using hle
      dsimp only
      split
      · exact hnew
      · exact ih _ hnew
    · rw [if_neg h1]; exact ih _ hs

theorem phase2Role_over (totalPurse : ℚ) (squadSize : Int) (maxOverseas : Int) :
    ∀ (l : List Row) (s : SqState),
      (∀ r ∈ l, r.bucket == "Indian") → OverOK maxOverseas s →
      OverOK maxOverseas (phase2Role totalPurse squadSize l s) := by
  intro l
  induction l with
  | nil => intro s _ hs; simpa [phase2Role] using hs
  | cons r rs ih =>
    intro s hl hs
    rw [phase2Role]
    by_cases h1 : rowKey r ∉ s.selected.map rowKey ∧
        canAfford s.spent totalPurse r.price ∧ (s.selected.length : Int) < squadSize
    · rw [if_pos h1]
      have hr : r.bucket == "Indian" := hl r (by simp)
      have hrov : (r.bucket == "Overseas") = false := by
        have hb : r.bucket = "Indian" := eq_of_beq hr
        simp [hb]
      have hnew : OverOK maxOverseas
          ⟨s.selected ++ [r], s.spent + r.price.getD 0, s.overseas⟩ := by
        refine ⟨?_, hs.2⟩
        simpa [countOvRows_append, hrov] using hs.1
      dsimp only
      split
      · exact hnew
      · exact ih _ (fun x hx => hl x (by simp [hx])) hnew
    · rw [if_neg h1]; exact ih _ (fun x hx => hl x (by simp [hx])) hs

theorem phase2_budget (totalPurse : ℚ) (squadSize : Int) (candidates : List Row) :
    ∀ (rr : List (String × Int)) (s : SqState), BudgetOK totalPurse s →
      BudgetOK totalPurse (phase2 totalPurse squadSize candidates rr s) := by
  intro rr
  induction rr with
  | nil => intro s hs; simpa [phase2] using hs
  | cons pr rest ih =>
    intro s hs
    rw [phase2]
    have hstep := phase2Role_budget totalPurse squadSize
      (candidates.filter (fun r => r.bucket == "Indian" && r.role == pr.1)) s hs
    split
    · exact hstep
    · exact ih _ hstep

theorem phase2_over (totalPurse : ℚ) (squadSize maxOverseas : Int)
    (candidates : List Row) :
    ∀ (rr : List (String × Int)) (s : SqState), OverOK maxOverseas s →
      OverOK maxOverseas (phase2 totalPurse squadSize candidates rr s) := by
  intro rr
  induction rr with
  | nil => intro s hs; simpa [phase2] using hs
  | cons pr rest ih =>
    intro s hs
    rw [phase2]
    have hind : ∀ r ∈ candidates.filter
        (fun r => r.bucket == "Indian" && r.role == pr.1), r.bucket == "Indian" := by
      intro r hr
      have hmem := List.of_mem_filter hr
      exact (Bool.and_eq_true _ _ |>.mp hmem).1
    have hstep := phase2Role_over totalPurse squadSize maxOverseas
      (candidates.filter (fun r => r.bucket == "Indian" && r.role == pr.1)) s hind hs
    split
    · exact hstep
    · exact ih _ hstep

theorem phase3_budget (totalPurse : ℚ) (squadSize : Int) :
    ∀ (l : List Row) (s : SqState), BudgetOK totalPurse s →
      BudgetOK totalPurse (phase3 totalPurse squadSize l s) := by
  intro l
  induction l with
  | nil => intro s hs; simpa [phase3] using hs
  | cons r rs ih =>
    intro s hs
    rw [phase3]
    have hnew : BudgetOK totalPurse
        (if rowKey r ∉ s.selected.map rowKey ∧
            canAfford s.spent totalPurse r.price ∧
            (s.selected.length : Int) < squadSize then
          (⟨s.selected ++ [r], s.spent + r.price.getD 0, s.overseas⟩ : SqState)
        else s) := by
      split
      · next h1 =>
        rcases canAfford_some h1.2.1 with ⟨p, hp, hle⟩
        constructor
        · simp only [rosterCost_append, hs.1]
        · simpa [hp] using hle
      · exact hs
    revert hnew
    generalize (if rowKey r ∉ s.selected.map rowKey ∧
        canAfford s.spent totalPurse r.price ∧
        (s.selected.length : Int) < squadSize then
      (⟨s.selected ++ [r], s.spent + r.price.getD 0, s.overseas⟩ : SqState)
    else s) = sNew
    intro hnew
    split
    · exact hnew
    · exact ih _ hnew

theorem phase3_over (totalPurse : ℚ) (squadSize maxOverseas : Int) :
    ∀ (l : List Row) (s : SqState),
      (∀ r ∈ l, r.bucket == "Indian") → OverOK maxOverseas s →
      OverOK maxOverseas (phase3 totalPurse squadSize l s) := by
  intro l
  induction l with
  | nil => intro s _ hs; simpa [phase3] using hs
  | cons r rs ih =>
    intro s hl hs
    rw [phase3]
    have hnew : OverOK maxOverseas
        (if rowKey r ∉ s.selected.map rowKey ∧
            canAfford s.spent totalPurse r.price ∧
            (s.selected.length : Int) < squadSize then
          (⟨s.selected ++ [r], s.spent + r.price.getD 0, s.overseas⟩ : SqState)
        else s) := by
      split
      · have hr : r.bucket == "Indian" := hl r (by simp)
        have hrov : (r.bucket == "Overseas") = false := by
          have hb : r.bucket = "Indian" := eq_of_beq hr
          simp [hb]
        refine ⟨?_, hs.2⟩
        simpa [countOvRows_append, hrov] using hs.1
      · exact hs
    revert hnew
    generalize (if rowKey r ∉ s.selected.map rowKey ∧
        canAfford s.spent totalPurse r.price ∧
        (s.selected.length : Int) < squadSize then
      (⟨s.selected ++ [r], s.spent + r.price.getD 0, s.overseas⟩ : SqState)
    else s) = sNew
    intro hnew
    split
    · exact hnew
    · exact ih _ (fun x hx => hl x (by simp [hx])) hnew

theorem nodup_append_singleton {α : Type} {l : List α} {x : α}
    (h1 : l.Nodup) (h2 : x ∉ l) : (l ++ [x]).Nodup := by
  simp [List.nodup_append, h1, h2]

theorem phase1_nodup (totalPurse : ℚ) (squadSize maxOverseas minOverseas : Int) :
    ∀ (l : List Row) (s : SqState),
      (s.selected.map rowKey).Nodup → (l.map rowKey).Nodup →
      (∀ r ∈ l, rowKey r ∉ s.selected.map rowKey) →
      (((phase1 totalPurse squadSize maxOverseas minOverseas l s).selected.map
        rowKey).Nodup) := by
  intro l
  induction l with
  | nil => intro s h1 _ _; simpa [phase1] using h1
  | cons r rs ih =>
    intro s h1 h2 h3
    have h2r : rowKey r ∉ rs.map rowKey := (List.nodup_cons.mp (by simpa using h2)).1
    have h2rs : (rs.map rowKey).Nodup := (List.nodup_cons.mp (by simpa using h2)).2
    rw [phase1]
    by_cases hb : (s.overseas : Int) ≥ minOverseas
    · rw [if_pos hb]; exact h1
    · rw [if_neg hb]
      by_cases hg : canAfford s.spent totalPurse r.price ∧
          (s.selected.length : Int) < squadSize ∧ (s.overseas : Int) < maxOverseas
      · rw [if_pos hg]
        refine ih _ ?_ h2rs ?_
        · simpa using nodup_append_singleton h1 (h3 r (by simp))
        · intro x hx
          simp only [List.map_append, List.map_cons, List.map_nil, List.mem_append,
            List.mem_singleton]
          push_neg
          refine ⟨h3 x (by simp [hx]), ?_⟩
          intro hxr
          exact h2r (hxr ▸ List.mem_map_of_mem rowKey hx)
      · rw [if_neg hg]
        exact ih _ h1 h2rs (fun x hx => h3 x (by simp [hx]))

theorem phase2Role_nodup (totalPurse : ℚ) (squadSize : Int) :
    ∀ (l : List Row) (s : SqState), (s.selected.map rowKey).Nodup →
      ((phase2Role totalPurse squadSize l s).selected.map rowKey).Nodup := by
  intro l
  induction l with
  | nil => intro s h1; simpa [phase2Role] using h1
  | cons r rs ih =>
    intro s h1
    rw [phase2Role]
    by_cases hg : rowKey r ∉ s.selected.map rowKey ∧
        canAfford s.spent totalPurse r.price ∧ (s.selected.length : Int) < squadSize
    · rw [if_pos hg]
      have h1n : ((s.selected ++ [r]).map rowKey).Nodup := by
        simpa using nodup_append_singleton h1 hg.1
      dsimp only
      split
      · exact h1n
      · exact ih _ h1n
    · rw [if_neg hg]; exact ih _ h1

theorem phase2_nodup (totalPurse : ℚ) (squadSize : Int) (candidates : List Row) :
    ∀ (rr : List (String × Int)) (s : SqState), (s.selected.map rowKey).Nodup →
      ((phase2 totalPurse squadSize candidates rr s).selected.map rowKey).Nodup := by
  intro rr
  induction rr with
  | nil => intro s h1; simpa [phase2] using h1
  | cons pr rest ih =>
    intro s h1
    rw [phase2]
    have hstep := phase2Role_nodup totalPurse squadSize
      (candidates.filter (fun r => r.bucket == "Indian" && r.role == pr.1)) s h1
    split
    · exact hstep
    · exact ih _ hstep

theorem phase3_nodup (totalPurse : ℚ) (squadSize : Int) :
    ∀ (l : List Row) (s : SqState), (s.selected.map rowKey).Nodup →
      ((phase3 totalPurse squadSize l s).selected.map rowKey).Nodup := by
  intro l
  induction l with
  | nil => intro s h1; simpa [phase3] using h1
  | cons r rs ih =>
    intro s h1
    rw [phase3]
    have h1n : (((if rowKey r ∉ s.selected.map rowKey ∧
          canAfford s.spent totalPurse r.price ∧
          (s.selected.length : Int) < squadSize then
        (⟨s.selected ++ [r], s.spent + r.price.getD 0, s.overseas⟩ : SqState)
      else s)).selected.map rowKey).Nodup := by
      split
      · next hg => simpa using nodup_append_singleton h1 hg.1
      · exact h1
    revert h1n
    generalize (if rowKey r ∉ s.selected.map rowKey ∧
        canAfford s.spent totalPurse r.price ∧
        (s.selected.length : Int) < squadSize then
      (⟨s.selected ++ [r], s.spent + r.price.getD 0, s.overseas⟩ : SqState)
    else s) = sNew
    intro h1n
    split
    · exact h1n
    · exact ih _ h1n

theorem buckets_append {s : SqState} {r : Row}
    (h : BucketsOK s) (hr : r.bucket = "Overseas" ∨ r.bucket = "Indian")
    (spent2 : ℚ) (ov2 : Nat) :
    BucketsOK ⟨s.selected ++ [r], spent2, ov2⟩ := by
  intro x hx
  rcases List.mem_append.mp hx with hx1 | hx1
  · exact h x hx1
  · rcases List.mem_singleton.mp hx1 with rfl
    exact hr

theorem phase1_buckets (totalPurse : ℚ) (squadSize maxOverseas minOverseas : Int) :
    ∀ (l : List Row) (s : SqState),
      (∀ r ∈ l, r.bucket == "Overseas") → BucketsOK s →
      BucketsOK (phase1 totalPurse squadSize maxOverseas minOverseas l s) := by
  intro l
  induction l with
  | nil => intro s _ hs; simpa [phase1] using hs
  | cons r rs ih =>
    intro s hl hs
    rw [phase1]
    by_cases hb : (s.overseas : Int) ≥ minOverseas
    · rw [if_pos hb]; exact hs
    · rw [if_neg hb]
      by_cases hg : canAfford s.spent totalPurse r.price ∧
          (s.selected.length : Int) < squadSize ∧ (s.overseas : Int) < maxOverseas
      · rw [if_pos hg]
        exact ih _ (fun x hx => hl x (by simp [hx]))
          (buckets_append hs (Or.inl (eq_of_beq (hl r (by simp)))) _ _)
      · rw [if_neg hg]; exact ih _ (fun x hx => hl x (by simp [hx])) hs

theorem phase2Role_buckets (totalPurse : ℚ) (squadSize : Int) :
    ∀ (l : List Row) (s : SqState),
      (∀ r ∈ l, r.bucket == "Indian") → BucketsOK s →
      BucketsOK (phase2Role totalPurse squadSize l s) := by
  intro l
  induction l with
  | nil => intro s _ hs; simpa [phase2Role] using hs
  | cons r rs ih =>
    intro s hl hs
    rw [phase2Role]
    by_cases hg : rowKey r ∉ s.selected.map rowKey ∧
        canAfford s.spent totalPurse r.price ∧ (s.selected.length : Int) < squadSize
    · rw [if_pos hg]
      have hnew := buckets_append hs (Or.inr (eq_of_beq (hl r (by simp))))
        (s.spent + r.price.getD 0) s.overseas
      dsimp only
      split
      · exact hnew
      · exact ih _ (fun x hx => hl x (by simp [hx])) hnew
    · rw [if_neg hg]; exact ih _ (fun x hx => hl x (by simp [hx])) hs

theorem phase2_buckets (totalPurse : ℚ) (squadSize : Int) (candidates : List Row) :
    ∀ (rr : List (String × Int)) (s : SqState), BucketsOK s →
      BucketsOK (phase2 totalPurse squadSize candidates rr s) := by
  intro rr
  induction rr with
  | nil => intro s hs; simpa [phase2] using hs
  | cons pr rest ih =>
    intro s hs
    rw [phase2]
    have hind : ∀ r ∈ candidates.filter
        (fun r => r.bucket == "Indian" && r.role == pr.1), r.bucket == "Indian" := by
      intro r hr
      have hmem := List.of_mem_filter hr
      exact (Bool.and_eq_true _ _ |>.mp hmem).1
    have hstep := phase2Role_buckets totalPurse squadSize
      (candidates.filter (fun r => r.bucket == "Indian" && r.role == pr.1)) s hind hs
    split
    · exact hstep
    · exact ih _ hstep

theorem phase3_buckets (totalPurse : ℚ) (squadSize : Int) :
    ∀ (l : List Row) (s : SqState),
      (∀ r ∈ l, r.bucket == "Indian") → BucketsOK s →
      BucketsOK (phase3 totalPurse squadSize l s) := by
  intro l
  induction l with
  | nil => intro s _ hs; simpa [phase3] using hs
  | cons r rs ih =>
    intro s hl hs
    rw [phase3]
    have hnew : BucketsOK
        (if rowKey r ∉ s.selected.map rowKey ∧
            canAfford s.spent totalPurse r.price ∧
            (s.selected.length : Int) < squadSize then
          (⟨s.selected ++ [r], s.spent + r.price.getD 0, s.overseas⟩ : SqState)
        else s) := by
      split
      · exact buckets_append hs (Or.inr (eq_of_beq (hl r (by simp)))) _ _
      · exact hs
    revert hnew
    generalize (if rowKey r ∉ s.selected.map rowKey ∧
        canAfford s.spent totalPurse r.price ∧
        (s.selected.length : Int) < squadSize then
      (⟨s.selected ++ [r], s.spent + r.price.getD 0, s.overseas⟩ : SqState)
    else s) = sNew
    intro hnew
    split
    · exact hnew
    · exact ih _ (fun x hx => hl x (by simp [hx])) hnew

/-- If `select_squad` returns a roster, it is the descending-score sort of the
final phase state. -/
theorem select_squad_ok {df : List Row} {year : Int} {totalPurse : ℚ}
    {squadSize maxOverseas minOverseas : Int}
    {roleRequirements : List (String × Int)} {out : List Row}
    (h : select_squad df year totalPurse squadSize maxOverseas minOverseas
      roleRequirements = .ok out) :
    out = sortD scoreKey (squadFinalState df year totalPurse squadSize
      maxOverseas minOverseas roleRequirements).selected := by
  unfold select_squad at h
  split at h
  · exact absurd h (by simp)
  · exact (Except.ok.inj h).symm

theorem squadFinalState_budget (df : List Row) (year : Int) (totalPurse : ℚ)
    (squadSize maxOverseas minOverseas : Int)
    (roleRequirements : List (String × Int)) (h : 0 ≤ totalPurse) :
    BudgetOK totalPurse (squadFinalState df year totalPurse squadSize
      maxOverseas minOverseas roleRequirements) := by
  unfold squadFinalState
  refine phase3_budget _ _ _ _ (phase2_budget _ _ _ _ _
    (phase1_budget _ _ _ _ _ _ ⟨?_, ?_⟩))
  · simp [rosterCost]
  · simpa using h

theorem squadFinalState_over (df : List Row) (year : Int) (totalPurse : ℚ)
    (squadSize maxOverseas minOverseas : Int)
    (roleRequirements : List (String × Int)) (h : 0 ≤ maxOverseas) :
    OverOK maxOverseas (squadFinalState df year totalPurse squadSize
      maxOverseas minOverseas roleRequirements) := by
  unfold squadFinalState
  refine phase3_over _ _ _ _ _ ?_ (phase2_over _ _ _ _ _ _
    (phase1_over _ _ _ _ _ _ ?_ ⟨?_, ?_⟩))
  · intro r hr
    exact (List.mem_filter.mp hr).2
  · intro r hr
    exact (List.mem_filter.mp hr).2
  · simp [countOvRows]
  · simpa using h

theorem squadFinalState_nodup (df : List Row) (year : Int) (totalPurse : ℚ)
    (squadSize maxOverseas minOverseas : Int)
    (roleRequirements : List (String × Int))
    (h : (df.map rowKey).Nodup) :
    ((squadFinalState df year totalPurse squadSize maxOverseas minOverseas
      roleRequirements).selected.map rowKey).Nodup := by
  unfold squadFinalState
  have hcand : ((squadCandidates df year).map rowKey).Nodup := by
    unfold squadCandidates
    have hsub : (df.filter
        (fun r => r.year == year && r.outcome == "SOLD" && r.score.isSome)).Sublist df :=
      List.filter_sublist df
    have hfil : ((df.filter
        (fun r => r.year == year && r.outcome == "SOLD" && r.score.isSome)).map
          rowKey).Nodup :=
      (hsub.map rowKey).nodup h
    exact ((perm_sortD scoreKey _).map rowKey).nodup_iff.mpr hfil
  have hov : (((squadCandidates df year).filter
      (fun r => r.bucket == "Overseas")).map rowKey).Nodup :=
    ((List.filter_sublist _).map rowKey).nodup hcand
  refine phase3_nodup _ _ _ _ (phase2_nodup _ _ _ _ _
    (phase1_nodup _ _ _ _ _ _ (by simp) hov ?_))
  intro r _
  simp

theorem squadFinalState_buckets (df : List Row) (year : Int) (totalPurse : ℚ)
    (squadSize maxOverseas minOverseas : Int)
    (roleRequirements : List (String × Int)) :
    BucketsOK (squadFinalState df year totalPurse squadSize maxOverseas
      minOverseas roleRequirements) := by
  unfold squadFinalState
  refine phase3_buckets _ _ _ _ ?_ (phase2_buckets _ _ _ _ _
    (phase1_buckets _ _ _ _ _ _ ?_ ?_))
  · intro r hr
    exact (List.mem_filter.mp hr).2
  · intro r hr
    exact (List.mem_filter.mp hr).2
  · intro r hr
    exact absurd hr (List.not_mem_nil r)

theorem rosterCost_perm {l1 l2 : List Row} (h : List.Perm l1 l2) :
    rosterCost l1 = rosterCost l2 := by
  unfold rosterCost
  exact (h.map (fun r => r.price.getD 0)).sum_eq

theorem countOvRows_perm {l1 l2 : List Row} (h : List.Perm l1 l2) :
    countOvRows l1 = countOvRows l2 := by
  unfold countOvRows
  exact h.countP_eq _

/-- Overseas cap for the squad selector: phase 1 only adds overseas rows while
`overseas_count < max_overseas`, phases 2 and 3 only add domestic rows. -/
theorem squad_overseas_cap (df : List Row) (year : Int) (totalPurse : ℚ)
    (squadSize maxOverseas minOverseas : Int) (rr : List (String × Int))
    (out : List Row) (hmax : 0 ≤ maxOverseas)
    (h : select_squad df year totalPurse squadSize maxOverseas minOverseas rr =
      .ok out) :
    (countOvRows out : Int) ≤ maxOverseas := by
  have hover := squadFinalState_over df year totalPurse squadSize maxOverseas
    minOverseas rr hmax
  have hout := select_squad_ok h
  have hperm : List.Perm out
      (squadFinalState df year totalPurse squadSize maxOverseas minOverseas
        rr).selected := by
    rw [hout]; exact perm_sortD _ _
  obtain ⟨h1, h2⟩ := hover
  rw [countOvRows_perm hperm]
  omega

theorem except_ok_of_toOption {ε α : Type} {e : Except ε α} {a : α}
    (h : e.toOption = some a) : e = .ok a := by
  cases e with
  | error err => simp [Except.toOption] at h
  | ok b => simp only [Except.toOption] at h; rw [Option.some.inj h]

/-- C2: for every call to `select_squad` with `total_purse ≥ 0`, the sum of
`predicted_price` over the returned roster is at most `total_purse`: every
addition in all three phases is guarded by the additive inequality
`spent + price <= total_purse`, with no slack or rounding tolerance. -/
theorem claim2_budget_bound (df : List Row) (year : Int) (totalPurse : ℚ)
    (squadSize maxOverseas minOverseas : Int) (rr : List (String × Int))
    (out : List Row) (hpurse : 0 ≤ totalPurse)
    (h : select_squad df year totalPurse squadSize maxOverseas minOverseas rr =
      .ok out) :
    rosterCost out ≤ totalPurse := by
  have hb := squadFinalState_budget df year totalPurse squadSize maxOverseas
    minOverseas rr hpurse
  have hout := select_squad_ok h
  have hperm : List.Perm out
      (squadFinalState df year totalPurse squadSize maxOverseas minOverseas
        rr).selected := by
    rw [hout]; exact perm_sortD _ _
  rw [rosterCost_perm hperm]
  exact hb.1 ▸ hb.2

unseal Rat.add in
/-- Witness for C2 at a concrete pool: the roster B, C, A costs 40 ≤ 100. -/
theorem claim2_budget_bound_witness :
    rosterCost [rowB, rowC, rowA] ≤ 100 :=
  claim2_budget_bound testPool 2025 100 9 3 1 defaultRoleRequirements
    [rowB, rowC, rowA] (by norm_num) (except_ok_of_toOption (by decide))

/-- C10: every phase of `select_squad` filters `country_bucket` to exactly
"Overseas" (phase 1) or exactly "Indian" (phases 2 and 3), so a candidate
with any other bucket value can never appear in the returned roster. -/
theorem claim10_closed_buckets (df : List Row) (year : Int) (totalPurse : ℚ)
    (squadSize maxOverseas minOverseas : Int) (rr : List (String × Int))
    (out : List Row) (r : Row)
    (h : select_squad df year totalPurse squadSize maxOverseas minOverseas rr =
      .ok out) (hr : r ∈ out) :
    r.bucket = "Overseas" ∨ r.bucket = "Indian" := by
  have hbuckets := squadFinalState_buckets df year totalPurse squadSize
    maxOverseas minOverseas rr
  have hout := select_squad_ok h
  have hperm : List.Perm out
      (squadFinalState df year totalPurse squadSize maxOverseas minOverseas
        rr).selected := by
    rw [hout]; exact perm_sortD _ _
  exact hbuckets r (hperm.mem_iff.mp hr)

unseal Rat.add in
/-- Witness for C10 at a concrete pool: row B came out of the selection and
its bucket is one of the two closed values. -/
theorem claim10_closed_buckets_witness :
    rowB.bucket = "Overseas" ∨ rowB.bucket = "Indian" :=
  claim10_closed_buckets testPool 2025 100 9 3 1 defaultRoleRequirements
    [rowB, rowC, rowA] rowB (except_ok_of_toOption (by decide)) (by decide)

theorem phase1_size_nonpos (totalPurse : ℚ)
    {squadSize : Int} (maxOverseas minOverseas : Int) (hsz : squadSize ≤ 0) :
    ∀ (l : List Row) (s : SqState),
      phase1 totalPurse squadSize maxOverseas minOverseas l s = s := by
  intro l
  induction l with
  | nil => intro s; rw [phase1]
  | cons r rs ih =>
    intro s
    rw [phase1]
    by_cases hb : (s.overseas : Int) ≥ minOverseas
    · rw [if_pos hb]
    · rw [if_neg hb, if_neg ?_, ih]
      rintro ⟨-, hlen, -⟩
      omega

theorem phase2Role_size_nonpos (totalPurse : ℚ)
    {squadSize : Int} (hsz : squadSize ≤ 0) :
    ∀ (l : List Row) (s : SqState), phase2Role totalPurse squadSize l s = s := by
  intro l
  induction l with
  | nil => intro s; rw [phase2Role]
  | cons r rs ih =>
    intro s
    rw [phase2Role]
    rw [if_neg ?_, ih]
    rintro ⟨-, -, hlen⟩
    omega

theorem phase2_size_nonpos (totalPurse : ℚ) (candidates : List Row)
    {squadSize : Int} (hsz : squadSize ≤ 0) :
    ∀ (rr : List (String × Int)) (s : SqState),
      phase2 totalPurse squadSize candidates rr s = s := by
  intro rr
  induction rr with
  | nil => intro s; rw [phase2]
  | cons pr rest ih =>
    intro s
    rw [phase2]
    rw [phase2Role_size_nonpos totalPurse hsz]
    have hge : (s.selected.length : Int) ≥ squadSize := by
      have h0 : (0 : Int) ≤ (s.selected.length : Int) := Int.ofNat_nonneg _
      omega
    rw [if_pos hge]

theorem phase3_size_nonpos (totalPurse : ℚ)
    {squadSize : Int} (hsz : squadSize ≤ 0) :
    ∀ (l : List Row) (s : SqState), phase3 totalPurse squadSize l s = s := by
  intro l
  induction l with
  | nil => intro s; rw [phase3]
  | cons r rs ih =>
    intro s
    rw [phase3]
    have hguard : ¬(rowKey r ∉ s.selected.map rowKey ∧
        canAfford s.spent totalPurse r.price ∧
        (s.selected.length : Int) < squadSize) := by
      rintro ⟨-, -, hlen⟩
      have h0 : (0 : Int) ≤ (s.selected.length : Int) := Int.ofNat_nonneg _
      omega
    have hge : (s.selected.length : Int) ≥ squadSize := by
      have h0 : (0 : Int) ≤ (s.selected.length : Int) := Int.ofNat_nonneg _
      omega
    simp only [if_neg hguard, if_pos hge]

/-- C5 (amended): `select_squad` performs no parameter validation.  With a
non-positive `squad_size` every phase guard `len(selected) < squad_size` is
false, nothing is selected, and the call ends in the `KeyError` from sorting
the empty output frame — not a fail-fast `InvalidInput`. -/
theorem claim5_amended_no_validation (df : List Row) (year : Int)
    (totalPurse : ℚ) (squadSize maxOverseas minOverseas : Int)
    (rr : List (String × Int)) (hsz : squadSize ≤ 0) :
    select_squad df year totalPurse squadSize maxOverseas minOverseas rr =
      .error "KeyError: efficiency_score" := by
  have hfin : squadFinalState df year totalPurse squadSize maxOverseas
      minOverseas rr = ⟨[], 0, 0⟩ := by
    simp only [squadFinalState]
    rw [phase1_size_nonpos totalPurse maxOverseas minOverseas hsz,
      phase2_size_nonpos totalPurse _ hsz, phase3_size_nonpos totalPurse hsz]
  unfold select_squad
  rw [hfin]
  rfl

/-- Witness for C5 (amended) at `squad_size = 0` on the concrete pool. -/
theorem claim5_amended_no_validation_witness :
    select_squad testPool 2025 100 0 3 1 defaultRoleRequirements =
      .error "KeyError: efficiency_score" :=
  claim5_amended_no_validation testPool 2025 100 0 3 1 defaultRoleRequirements
    (by norm_num)

unseal Rat.add in
/-- Counterexample for C5 as stated: with the contradictory parameters
`min_overseas = 5 > max_overseas = 2`, `select_squad` does not fail fast with
an `InvalidInput` error; it proceeds and returns a roster. -/
theorem claim5_counterexample :
    select_squad testPool 2025 100 9 2 5 defaultRoleRequirements =
      .ok [rowB, rowC, rowA] :=
  except_ok_of_toOption (by decide)

/-- C3 (evaluated at the failing inputs): with zero eligible candidates
`select_squad` raises (modelled `KeyError`), contradicting the claimed
empty-roster return — both for an empty frame and for a frame whose only row
fails the year filter — while `select_starting_xi` does return an empty
roster. -/
theorem claim3_empty_pool_behaviour :
    select_squad [] 2025 100 9 3 1 defaultRoleRequirements =
      .error "KeyError: efficiency_score" ∧
    select_squad [⟨"A", 2024, "SOLD", "Indian", "Batter", some 5, some 10⟩]
      2025 100 9 3 1 defaultRoleRequirements =
      .error "KeyError: efficiency_score" ∧
    select_starting_xi [] "balanced" 4 = ([], none) := by
  refine ⟨by rfl, by rfl, by rfl⟩

/-- C9: `predict_prices` sets `predicted_price` to the 50/50 average of the
two mapped-back regression predictions floored at the row base price
(missing base price treated as 0); hence `predicted_price ≥ base_price`
whenever the base price is present. -/
theorem claim9_price_floor (priceLgbm priceKnn : ℚ) (basePrice : Option ℚ)
    (b : ℚ) (hb : basePrice = some b) :
    predictedPrice priceLgbm priceKnn basePrice =
      max (1 / 2 * priceLgbm + 1 / 2 * priceKnn) b ∧
    b ≤ predictedPrice priceLgbm priceKnn basePrice := by
  subst hb
  exact ⟨rfl, le_max_right _ _⟩

/-- Witness for C9 at concrete predictions 1 and 3 with base price 5. -/
theorem claim9_price_floor_witness :
    predictedPrice 1 3 (some 5) = max (1 / 2 * 1 + 1 / 2 * 3) 5 ∧
    (5 : ℚ) ≤ predictedPrice 1 3 (some 5) :=
  claim9_price_floor 1 3 (some 5) 5 rfl

theorem phase1_stop (totalPurse : ℚ) (squadSize maxOverseas minOverseas : Int)
    (l : List Row) (s : SqState) (h : (s.overseas : Int) ≥ minOverseas) :
    phase1 totalPurse squadSize maxOverseas minOverseas l s = s := by
  cases l with
  | nil => rw [phase1]
  | cons r rs => rw [phase1, if_pos h]

theorem phase3_stop (totalPurse : ℚ) (squadSize : Int)
    (l : List Row) (s : SqState) (h : (s.selected.length : Int) ≥ squadSize) :
    phase3 totalPurse squadSize l s = s := by
  cases l with
  | nil => rw [phase3]
  | cons r rs =>
    rw [phase3]
    have hguard : ¬(rowKey r ∉ s.selected.map rowKey ∧
        canAfford s.spent totalPurse r.price ∧
        (s.selected.length : Int) < squadSize) := by
      rintro ⟨-, -, hlen⟩
      omega
    simp only [if_neg hguard, if_pos h]

/-- A row with a missing price is skipped by phase 1 exactly as if it were
absent: `can_afford(NaN)` is false. -/
theorem phase1_filter_price (totalPurse : ℚ)
    (squadSize maxOverseas minOverseas : Int) :
    ∀ (l : List Row) (s : SqState),
      phase1 totalPurse squadSize maxOverseas minOverseas
        (l.filter (fun r => r.price.isSome)) s =
      phase1 totalPurse squadSize maxOverseas minOverseas l s := by
  intro l
  induction l with
  | nil => intro s; rfl
  | cons r rs ih =>
    intro s
    cases hpr : r.price with
    | some p =>
      have hfc : List.filter (fun r : Row => r.price.isSome) (r :: rs) =
          r :: List.filter (fun r : Row => r.price.isSome) rs := by
        simp [List.filter_cons, hpr]
      rw [hfc]
      rw [phase1, phase1]
      by_cases hb : (s.overseas : Int) ≥ minOverseas
      · rw [if_pos hb, if_pos hb]
      · rw [if_neg hb, if_neg hb]
        by_cases hg : canAfford s.spent totalPurse r.price ∧
            (s.selected.length : Int) < squadSize ∧
            (s.overseas : Int) < maxOverseas
        · rw [if_pos hg, if_pos hg, ih]
        · rw [if_neg hg, if_neg hg, ih]
    | none =>
      have hfc : List.filter (fun r : Row => r.price.isSome) (r :: rs) =
          List.filter (fun r : Row => r.price.isSome) rs := by
        simp [List.filter_cons, hpr]
      rw [hfc]
      rw [phase1]
      by_cases hb : (s.overseas : Int) ≥ minOverseas
      · rw [if_pos hb, ih, phase1_stop _ _ _ _ _ _ hb]
      · rw [if_neg hb]
        have hg : ¬(canAfford s.spent totalPurse r.price ∧
            (s.selected.length : Int) < squadSize ∧
            (s.overseas : Int) < maxOverseas) := by
          rintro ⟨hca, -, -⟩
          rw [hpr] at hca
          exact hca
        rw [if_neg hg, ih]

theorem phase2Role_filter_price (totalPurse : ℚ) (squadSize : Int) :
    ∀ (l : List Row) (s : SqState),
      phase2Role totalPurse squadSize (l.filter (fun r => r.price.isSome)) s =
      phase2Role totalPurse squadSize l s := by
  intro l
  induction l with
  | nil => intro s; rfl
  | cons r rs ih =>
    intro s
    cases hpr : r.price with
    | some p =>
      have hfc : List.filter (fun r : Row => r.price.isSome) (r :: rs) =
          r :: List.filter (fun r : Row => r.price.isSome) rs := by
        simp [List.filter_cons, hpr]
      rw [hfc]
      rw [phase2Role, phase2Role]
      by_cases hg : rowKey r ∉ s.selected.map rowKey ∧
          canAfford s.spent totalPurse r.price ∧
          (s.selected.length : Int) < squadSize
      · rw [if_pos hg, if_pos hg]
        dsimp only
        split
        · rfl
        · rw [ih]
      · rw [if_neg hg, if_neg hg, ih]
    | none =>
      have hfc : List.filter (fun r : Row => r.price.isSome) (r :: rs) =
          List.filter (fun r : Row => r.price.isSome) rs := by
        simp [List.filter_cons, hpr]
      rw [hfc]
      rw [phase2Role]
      have hg : ¬(rowKey r ∉ s.selected.map rowKey ∧
          canAfford s.spent totalPurse r.price ∧
          (s.selected.length : Int) < squadSize) := by
        rintro ⟨-, hca, -⟩
        rw [hpr] at hca
        exact hca
      rw [if_neg hg, ih]

theorem phase3_filter_price (totalPurse : ℚ) (squadSize : Int) :
    ∀ (l : List Row) (s : SqState),
      phase3 totalPurse squadSize (l.filter (fun r => r.price.isSome)) s =
      phase3 totalPurse squadSize l s := by
  intro l
  induction l with
  | nil => intro s; rfl
  | cons r rs ih =>
    intro s
    cases hpr : r.price with
    | some p =>
      have hfc : List.filter (fun r : Row => r.price.isSome) (r :: rs) =
          r :: List.filter (fun r : Row => r.price.isSome) rs := by
        simp [List.filter_cons, hpr]
      rw [hfc]
      rw [phase3, phase3]
      by_cases hg : rowKey r ∉ s.selected.map rowKey ∧
          canAfford s.spent totalPurse r.price ∧
          (s.selected.length : Int) < squadSize
      · simp only [if_pos hg]
        split
        · rfl
        · rw [ih]
      · simp only [if_neg hg]
        split
        · rfl
        · rw [ih]
    | none =>
      have hfc : List.filter (fun r : Row => r.price.isSome) (r :: rs) =
          List.filter (fun r : Row => r.price.isSome) rs := by
        simp [List.filter_cons, hpr]
      rw [hfc]
      rw [phase3]
      have hg : ¬(rowKey r ∉ s.selected.map rowKey ∧
          canAfford s.spent totalPurse r.price ∧
          (s.selected.length : Int) < squadSize) := by
        rintro ⟨-, hca, -⟩
        rw [hpr] at hca
        exact hca
      simp only [if_neg hg]
      by_cases hlen : (s.selected.length : Int) ≥ squadSize
      · rw [if_pos hlen, ih, phase3_stop _ _ _ _ hlen]
      · rw [if_neg hlen, ih]

theorem phase2_filter_price (totalPurse : ℚ) (squadSize : Int)
    (candidates : List Row) :
    ∀ (rr : List (String × Int)) (s : SqState),
      phase2 totalPurse squadSize
        (candidates.filter (fun r => r.price.isSome)) rr s =
      phase2 totalPurse squadSize candidates rr s := by
  intro rr
  induction rr with
  | nil => intro s; rfl
  | cons pr rest ih =>
    intro s
    rw [phase2, phase2]
    have hswap : (candidates.filter (fun r => r.price.isSome)).filter
        (fun r => r.bucket == "Indian" && r.role == pr.1) =
        (candidates.filter
          (fun r => r.bucket == "Indian" && r.role == pr.1)).filter
          (fun r => r.price.isSome) := by
      rw [List.filter_comm]
    rw [hswap, phase2Role_filter_price]
    split
    · rfl
    · rw [ih]

/-- C7: a candidate with a missing/NaN `efficiency_score` is excluded by the
eligibility filter, and one with a missing/NaN `predicted_price` can never be
added because `can_afford(NaN)` is false; in both cases only that candidate
is excluded and `select_squad` returns exactly the roster it would return on
the pool without those rows, rather than aborting. -/
theorem claim7_missing_fields_excluded (df : List Row) (year : Int)
    (totalPurse : ℚ) (squadSize maxOverseas minOverseas : Int)
    (rr : List (String × Int)) :
    select_squad (df.filter (fun r => r.score.isSome && r.price.isSome))
      year totalPurse squadSize maxOverseas minOverseas rr =
    select_squad df year totalPurse squadSize maxOverseas minOverseas rr := by
  have hcand : squadCandidates
      (df.filter (fun r => r.score.isSome && r.price.isSome)) year =
      (squadCandidates df year).filter (fun r => r.price.isSome) := by
    unfold squadCandidates
    rw [filter_sortD]
    congr 1
    rw [List.filter_comm, List.filter_filter, List.filter_filter]
    refine List.filter_congr ?_
    intro r _
    cases hy : (r.year == year) <;> cases ho : (r.outcome == "SOLD") <;>
      cases hs : r.score.isSome <;> cases hp : r.price.isSome <;>
      simp [hy, ho, hs, hp]
  have hfin : squadFinalState
      (df.filter (fun r => r.score.isSome && r.price.isSome)) year totalPurse
      squadSize maxOverseas minOverseas rr =
      squadFinalState df year totalPurse squadSize maxOverseas minOverseas rr := by
    simp only [squadFinalState, hcand]
    rw [List.filter_comm (fun r : Row => r.bucket == "Overseas")
      (fun r : Row => r.price.isSome) (squadCandidates df year)]
    rw [phase1_filter_price, phase2_filter_price]
    rw [List.filter_comm (fun r : Row => r.bucket == "Indian")
      (fun r : Row => r.price.isSome) (squadCandidates df year)]
    rw [phase3_filter_price]
  unfold select_squad
  rw [hfin]

/-! ## Swap-engine lemmas for `select_starting_xi` -/

/-- Under unique player names, dropping the rows named like `o` is exactly
erasing `o`. -/
theorem filter_ne_name_eq_erase (xi : List Player) (o : Player)
    (hnd : (xi.map Player.name).Nodup) (ho : o ∈ xi) :
    xi.filter (fun p => !(p.name == o.name)) = xi.erase o := by
  induction xi with
  | nil => cases ho
  | cons x xs ih =>
    rw [List.map_cons] at hnd
    have hnd2 := List.nodup_cons.mp hnd
    by_cases hxo : x = o
    · subst hxo
      rw [List.erase_cons_head]
      have hfc : List.filter (fun p : Player => !(p.name == x.name)) (x :: xs) =
          List.filter (fun p : Player => !(p.name == x.name)) xs := by
        simp [List.filter_cons]
      rw [hfc]
      refine List.filter_eq_self.mpr ?_
      intro p hp
      have hne : p.name ≠ x.name := by
        intro he
        exact hnd2.1 (he ▸ List.mem_map_of_mem Player.name hp)
      simp [hne]
    · have hoxs : o ∈ xs := by
        rcases List.mem_cons.mp ho with h1 | h1
        · exact absurd h1.symm hxo
        · exact h1
      have hxname : x.name ≠ o.name := by
        intro he
        exact hnd2.1 (he ▸ List.mem_map_of_mem Player.name hoxs)
      have hfc : List.filter (fun p : Player => !(p.name == o.name)) (x :: xs) =
          x :: List.filter (fun p : Player => !(p.name == o.name)) xs := by
        simp [List.filter_cons, hxname]
      rw [hfc, List.erase_cons_tail (by simp [hxo]), ih hnd2.2 hoxs]

/-- The updated XI after a swap is a permutation of "erase the outgoing row,
append the incoming one". -/
theorem swapXI_xi_perm (xi rem : List Player) (inP outP : Player)
    (hnd : (xi.map Player.name).Nodup) (ho : outP ∈ xi) :
    List.Perm (swapXI xi rem inP outP).1 (inP :: xi.erase outP) := by
  unfold swapXI
  refine (perm_sortD _ _).trans ?_
  rw [filter_ne_name_eq_erase xi outP hnd ho]
  exact List.perm_append_singleton _ _

/-- The updated bench after a swap is a permutation of "erase the incoming
row, append the outgoing one". -/
theorem swapXI_rem_perm (xi rem : List Player) (inP outP : Player)
    (hnd : (rem.map Player.name).Nodup) (hi : inP ∈ rem) :
    List.Perm (swapXI xi rem inP outP).2 (outP :: rem.erase inP) := by
  unfold swapXI
  dsimp only
  rw [filter_ne_name_eq_erase rem inP hnd hi]
  exact List.perm_append_singleton _ _

/-- Count change across a swap: the outgoing row leaves the count, the
incoming row enters it. -/
theorem swapXI_countP (f : Player → Bool) (xi rem : List Player)
    (inP outP : Player) (hnd : (xi.map Player.name).Nodup) (ho : outP ∈ xi) :
    (swapXI xi rem inP outP).1.countP f + (if f outP then 1 else 0) =
      xi.countP f + (if f inP then 1 else 0) := by
  have h1 := (swapXI_xi_perm xi rem inP outP hnd ho).countP_eq f
  have h2 := (List.perm_cons_erase ho).countP_eq f
  rw [h1, h2]
  simp only [List.countP_cons]
  by_cases hf1 : f inP <;> by_cases hf2 : f outP <;> simp [hf1, hf2]

theorem notmem_map_name_erase (l : List Player) (o : Player)
    (hnd : (l.map Player.name).Nodup) (ho : o ∈ l) :
    o.name ∉ (l.erase o).map Player.name := by
  intro hmem
  have hperm := (List.perm_cons_erase ho).map Player.name
  have hnd2 := hperm.nodup_iff.mp hnd
  rw [List.map_cons] at hnd2
  exact (List.nodup_cons.mp hnd2).1 hmem

theorem mem_map_name_erase {l : List Player} {o : Player} {n : String}
    (h : n ∈ (l.erase o).map Player.name) : n ∈ l.map Player.name := by
  rcases List.mem_map.mp h with ⟨p, hp, rfl⟩
  exact List.mem_map_of_mem Player.name (List.mem_of_mem_erase hp)

theorem nodup_map_name_erase (l : List Player) (o : Player)
    (hnd : (l.map Player.name).Nodup) (ho : o ∈ l) :
    ((l.erase o).map Player.name).Nodup := by
  have hperm := (List.perm_cons_erase ho).map Player.name
  have hnd2 := hperm.nodup_iff.mp hnd
  rw [List.map_cons] at hnd2
  exact (List.nodup_cons.mp hnd2).2

theorem swapXI_facts {dfTeam xi rem : List Player} {inP outP : Player}
    (hf : XIfacts dfTeam xi rem) (hi : inP ∈ rem) (ho : outP ∈ xi) :
    XIfacts dfTeam (swapXI xi rem inP outP).1 (swapXI xi rem inP outP).2 := by
  have hinotxi : inP.name ∉ xi.map Player.name := by
    intro hmem
    exact hf.disj inP.name hmem (List.mem_map_of_mem Player.name hi)
  have honotrem : outP.name ∉ rem.map Player.name := by
    intro hmem
    exact hf.disj outP.name (List.mem_map_of_mem Player.name ho) hmem
  have hxiperm := (swapXI_xi_perm xi rem inP outP hf.ndXi ho).map Player.name
  have hremperm := (swapXI_rem_perm xi rem inP outP hf.ndRem hi).map Player.name
  refine ⟨?_, ?_, ?_, ?_⟩
  · refine hxiperm.nodup_iff.mpr ?_
    rw [List.map_cons]
    refine List.nodup_cons.mpr ⟨?_, nodup_map_name_erase xi outP hf.ndXi ho⟩
    intro hmem
    exact hinotxi (mem_map_name_erase hmem)
  · refine hremperm.nodup_iff.mpr ?_
    rw [List.map_cons]
    refine List.nodup_cons.mpr ⟨?_, nodup_map_name_erase rem inP hf.ndRem hi⟩
    intro hmem
    exact honotrem (mem_map_name_erase hmem)
  · intro n hn hn2
    have hn3 := hxiperm.mem_iff.mp hn
    have hn4 := hremperm.mem_iff.mp hn2
    simp only [List.map_cons, List.mem_cons] at hn3 hn4
    rcases hn3 with h3 | h3 <;> rcases hn4 with h4 | h4
    · subst h3
      exact honotrem (h4 ▸ List.mem_map_of_mem Player.name hi)
    · subst h3
      exact notmem_map_name_erase rem inP hf.ndRem hi h4
    · subst h4
      exact notmem_map_name_erase xi outP hf.ndXi ho h3
    · exact hf.disj n (mem_map_name_erase h3) (mem_map_name_erase h4)
  · have hxi2 := swapXI_xi_perm xi rem inP outP hf.ndXi ho
    have hrem2 := swapXI_rem_perm xi rem inP outP hf.ndRem hi
    have k1 : List.Perm (inP :: (xi.erase outP ++ outP :: rem.erase inP))
        (inP :: (outP :: (xi.erase outP ++ rem.erase inP))) :=
      List.Perm.cons inP List.perm_middle
    have k2 : List.Perm (inP :: (outP :: (xi.erase outP ++ rem.erase inP)))
        (outP :: (inP :: (xi.erase outP ++ rem.erase inP))) :=
      List.Perm.swap outP inP (xi.erase outP ++ rem.erase inP)
    have k3 : List.Perm (outP :: (inP :: (xi.erase outP ++ rem.erase inP)))
        (outP :: (xi.erase outP ++ inP :: rem.erase inP)) :=
      List.Perm.cons outP List.perm_middle.symm
    have key : List.Perm
        ((inP :: xi.erase outP) ++ (outP :: rem.erase inP))
        ((outP :: xi.erase outP) ++ (inP :: rem.erase inP)) := by
      have e1 : (inP :: xi.erase outP) ++ (outP :: rem.erase inP) =
          inP :: (xi.erase outP ++ outP :: rem.erase inP) := by simp
      have e2 : (outP :: xi.erase outP) ++ (inP :: rem.erase inP) =
          outP :: (xi.erase outP ++ inP :: rem.erase inP) := by simp
      rw [e1, e2]
      exact (k1.trans k2).trans k3
    refine ((hxi2.append hrem2).trans (key.trans ?_)).trans hf.perm
    exact List.Perm.append (List.perm_cons_erase ho).symm
      (List.perm_cons_erase hi).symm

theorem head_sortD_filter_mem {key : Player → ℚ} {f : Player → Bool}
    {l : List Player} {a : Player} {rest : List Player}
    (h : sortD key (l.filter f) = a :: rest) : a ∈ l ∧ f a = true := by
  have hmem : a ∈ sortD key (l.filter f) := by rw [h]; exact List.mem_cons_self a rest
  have hmem2 := (perm_sortD key (l.filter f)).mem_iff.mp hmem
  exact ⟨List.mem_of_mem_filter hmem2, List.of_mem_filter hmem2⟩

theorem head_sortA_filter_mem {key : Player → ℚ} {f : Player → Bool}
    {l : List Player} {a : Player} {rest : List Player}
    (h : sortA key (l.filter f) = a :: rest) : a ∈ l ∧ f a = true :=
  head_sortD_filter_mem h

theorem findSwapOut_some {ov : Nat} {cap : Int} {inP o : Player}
    {outs : List Player} (h : findSwapOut ov cap inP outs = some o) :
    o ∈ outs ∧ overseasAfter ov o inP ≤ cap := by
  unfold findSwapOut at h
  refine ⟨List.mem_of_find?_eq_some h, ?_⟩
  have := List.find?_some h
  exact of_decide_eq_true this

theorem find?_mem_filter_sortD {key : Player → ℚ} {f : Player → Bool}
    {g : Player → Bool} {l : List Player} {a : Player}
    (h : (sortD key (l.filter f)).find? g = some a) :
    a ∈ l ∧ f a = true ∧ g a = true := by
  have hmem := List.mem_of_find?_eq_some h
  have hmem2 := (perm_sortD key (l.filter f)).mem_iff.mp hmem
  exact ⟨List.mem_of_mem_filter hmem2, List.of_mem_filter hmem2,
    List.find?_some h⟩

/-- Count after a guarded swap stays within the cap. -/
theorem swap_capOK {cap : Int} {xi rem : List Player} {inP outP : Player}
    (hnd : (xi.map Player.name).Nodup) (ho : outP ∈ xi)
    (hguard : overseasAfter (xi.countP fun p => p.isOverseas) outP inP ≤ cap) :
    capOK cap (swapXI xi rem inP outP).1 := by
  have hc := swapXI_countP (fun p => p.isOverseas) xi rem inP outP hnd ho
  unfold capOK
  unfold overseasAfter at hguard
  by_cases h1 : outP.isOverseas <;> by_cases h2 : inP.isOverseas <;>
    simp [h1, h2] at hc hguard ⊢ <;> omega

theorem recomputeCounts_overseas (xi : List Player) :
    (recomputeCounts xi).overseas = xi.countP fun p => p.isOverseas := rfl

theorem recomputeCounts_bowlers (xi : List Player) :
    (recomputeCounts xi).bowlers = xi.countP isBowlerSpec := rfl

theorem caseAInner_pres (dfTeam : List Player) (cap : Int) :
    ∀ (n : Nat) (xi rem : List Player) (changed : Bool),
      XIfacts dfTeam xi rem → capOK cap xi →
      XIfacts dfTeam (caseAInner cap n xi rem changed).1
          (caseAInner cap n xi rem changed).2.1 ∧
        capOK cap (caseAInner cap n xi rem changed).1 := by
  intro n
  induction n with
  | zero => intro xi rem changed hf hcap; exact ⟨hf, hcap⟩
  | succ n ih =>
    intro xi rem changed hf hcap
    rw [caseAInner]
    by_cases hb : (recomputeCounts xi).bowlers ≥ MIN_SPECIAL_BOWLERS
    · rw [if_pos hb]; exact ⟨hf, hcap⟩
    · rw [if_neg hb]
      cases hsort : sortD fsKey (rem.filter isBowlerSpec) with
      | nil => exact ⟨hf, hcap⟩
      | cons inP rest =>
        have hin : inP ∈ rem := (head_sortD_filter_mem hsort).1
        dsimp only
        cases hfind : findSwapOut (recomputeCounts xi).overseas cap inP
            (sortA fsKey (xi.filter
              (fun p => !(isBowlerSpec p) && !p.isKeeper))) with
        | none => exact ⟨hf, hcap⟩
        | some outP =>
          have hres := findSwapOut_some hfind
          have houts : outP ∈ xi := by
            have hmem2 := (perm_sortA fsKey _).mem_iff.mp hres.1
            exact List.mem_of_mem_filter hmem2
          have hguard : overseasAfter (xi.countP fun p => p.isOverseas) outP
              inP ≤ cap := by
            rw [recomputeCounts_overseas] at hres
            exact hres.2
          exact ih _ _ true (swapXI_facts hf hin houts)
            (swap_capOK hf.ndXi houts hguard)

theorem caseBInner_pres (dfTeam : List Player) (cap : Int) :
    ∀ (n : Nat) (xi rem : List Player) (changed : Bool),
      XIfacts dfTeam xi rem → capOK cap xi →
      XIfacts dfTeam (caseBInner cap n xi rem changed).1
          (caseBInner cap n xi rem changed).2.1 ∧
        capOK cap (caseBInner cap n xi rem changed).1 := by
  intro n
  induction n with
  | zero => intro xi rem changed hf hcap; exact ⟨hf, hcap⟩
  | succ n ih =>
    intro xi rem changed hf hcap
    rw [caseBInner]
    by_cases hb : (recomputeCounts xi).bowlers ≤ MAX_SPECIAL_BOWLERS
    · rw [if_pos hb]; exact ⟨hf, hcap⟩
    · rw [if_neg hb]
      cases hsort : sortA fsKey
          (xi.filter (fun p => isBowlerSpec p && !p.isKeeper)) with
      | nil => exact ⟨hf, hcap⟩
      | cons outP rest =>
        have hout : outP ∈ xi := (head_sortA_filter_mem hsort).1
        dsimp only
        cases hfind : (sortD fsKey (rem.filter (fun p => !(isBowlerSpec p)))).find?
            (fun i => decide (overseasAfter (recomputeCounts xi).overseas outP i
              ≤ cap)) with
        | none => exact ⟨hf, hcap⟩
        | some inP =>
          have hres := find?_mem_filter_sortD hfind
          have hin : inP ∈ rem := hres.1
          have hguard : overseasAfter (xi.countP fun p => p.isOverseas) outP
              inP ≤ cap := by
            have := of_decide_eq_true hres.2.2
            rw [recomputeCounts_overseas] at this
            exact this
          exact ih _ _ true (swapXI_facts hf hin hout)
            (swap_capOK hf.ndXi hout hguard)

theorem repairLoop_pres (dfTeam : List Player) (cap : Int) :
    ∀ (fuel : Nat) (xi rem : List Player),
      XIfacts dfTeam xi rem → capOK cap xi →
      XIfacts dfTeam (repairLoop cap fuel xi rem).1
          (repairLoop cap fuel xi rem).2 ∧
        capOK cap (repairLoop cap fuel xi rem).1 := by
  intro fuel
  induction fuel with
  | zero => intro xi rem hf hcap; exact ⟨hf, hcap⟩
  | succ fuel ih =>
    intro xi rem hf hcap
    rw [repairLoop]
    by_cases h1 : (recomputeCounts xi).bowlers < MIN_SPECIAL_BOWLERS
    · rw [if_pos h1]
      by_cases h2 : (rem.filter isBowlerSpec).isEmpty
      · rw [if_pos h2]; exact ⟨hf, hcap⟩
      · rw [if_neg h2]
        have hstep := caseAInner_pres dfTeam cap
          (MIN_SPECIAL_BOWLERS - (recomputeCounts xi).bowlers) xi rem false
          hf hcap
        dsimp only
        split
        · exact ih _ _ hstep.1 hstep.2
        · exact hstep
    · rw [if_neg h1]
      by_cases h3 : (recomputeCounts xi).bowlers > MAX_SPECIAL_BOWLERS
      · rw [if_pos h3]
        by_cases h4 : (xi.filter (fun p => isBowlerSpec p && !p.isKeeper)).isEmpty
        · rw [if_pos h4]; exact ⟨hf, hcap⟩
        · rw [if_neg h4]
          have hstep := caseBInner_pres dfTeam cap
            ((recomputeCounts xi).bowlers - MAX_SPECIAL_BOWLERS) xi rem false
            hf hcap
          dsimp only
          split
          · exact ih _ _ hstep.1 hstep.2
          · exact hstep
      · rw [if_neg h3]; exact ⟨hf, hcap⟩

theorem arRepairInner_pres (dfTeam : List Player) (cap : Int) :
    ∀ (n : Nat) (xi rem : List Player),
      XIfacts dfTeam xi rem → capOK cap xi →
      XIfacts dfTeam (arRepairInner cap n xi rem).1
          (arRepairInner cap n xi rem).2 ∧
        capOK cap (arRepairInner cap n xi rem).1 := by
  intro n
  induction n with
  | zero => intro xi rem hf hcap; exact ⟨hf, hcap⟩
  | succ n ih =>
    intro xi rem hf hcap
    rw [arRepairInner]
    by_cases hb : (recomputeCounts xi).allrounders ≥ MIN_ALLROUNDERS_IF_4
    · rw [if_pos hb]; exact ⟨hf, hcap⟩
    · rw [if_neg hb]
      cases hsort : sortD fsKey (rem.filter isAllrounder) with
      | nil => exact ⟨hf, hcap⟩
      | cons inP rest =>
        have hin : inP ∈ rem := (head_sortD_filter_mem hsort).1
        dsimp only
        by_cases hempty : (sortA fsKey (xi.filter
            (fun p => !(isAllrounder p) && !(isBowlerSpec p) &&
              !p.isKeeper))).isEmpty
        · rw [if_pos hempty]; exact ⟨hf, hcap⟩
        · rw [if_neg hempty]
          cases hfind : findSwapOut (recomputeCounts xi).overseas cap inP
              (sortA fsKey (xi.filter
                (fun p => !(isAllrounder p) && !(isBowlerSpec p) &&
                  !p.isKeeper))) with
          | none => exact ⟨hf, hcap⟩
          | some outP =>
            have hres := findSwapOut_some hfind
            have houts : outP ∈ xi := by
              have hmem2 := (perm_sortA fsKey _).mem_iff.mp hres.1
              exact List.mem_of_mem_filter hmem2
            have hguard : overseasAfter (xi.countP fun p => p.isOverseas) outP
                inP ≤ cap := by
              rw [recomputeCounts_overseas] at hres
              exact hres.2
            exact ih _ _ (swapXI_facts hf hin houts)
              (swap_capOK hf.ndXi houts hguard)

theorem arRepair_pres (dfTeam : List Player) (cap : Int)
    (xi rem : List Player) (hf : XIfacts dfTeam xi rem) (hcap : capOK cap xi) :
    XIfacts dfTeam (arRepair cap xi rem).1 (arRepair cap xi rem).2 ∧
      capOK cap (arRepair cap xi rem).1 := by
  rw [arRepair]
  split
  · exact arRepairInner_pres dfTeam cap _ xi rem hf hcap
  · exact ⟨hf, hcap⟩

theorem keeperFix_pres (dfTeam : List Player) (cap : Int)
    (xi rem : List Player) (hf : XIfacts dfTeam xi rem) (hcap : capOK cap xi) :
    XIfacts dfTeam (keeperFix cap dfTeam xi rem).1
        (keeperFix cap dfTeam xi rem).2 ∧
      capOK cap (keeperFix cap dfTeam xi rem).1 := by
  rw [keeperFix]
  by_cases h0 : (recomputeCounts xi).keepers = 0
  · rw [if_pos h0]
    cases hsort : sortD fsKey (dfTeam.filter (fun p => p.isKeeper)) with
    | nil => exact ⟨hf, hcap⟩
    | cons bk rest =>
      dsimp only
      by_cases hmem : (xi.map Player.name).contains bk.name
      · rw [if_pos hmem]; exact ⟨hf, hcap⟩
      · rw [if_neg hmem]
        cases hfind : findSwapOut (recomputeCounts xi).overseas cap bk
            (sortA fsKey (xi.filter (fun p => !p.isKeeper))) with
        | none => exact ⟨hf, hcap⟩
        | some outP =>
          have hres := findSwapOut_some hfind
          have houts : outP ∈ xi := by
            have hmem2 := (perm_sortA fsKey _).mem_iff.mp hres.1
            exact List.mem_of_mem_filter hmem2
          have hbkdf : bk ∈ dfTeam := (head_sortD_filter_mem hsort).1
          have hbkrem : bk ∈ rem := by
            have h1 : bk ∈ xi ++ rem := hf.perm.symm.mem_iff.mp hbkdf
            rcases List.mem_append.mp h1 with h2 | h2
            · exact absurd (List.mem_map_of_mem Player.name h2)
                (by simpa using hmem)
            · exact h2
          have hguard : overseasAfter (xi.countP fun p => p.isOverseas) outP
              bk ≤ cap := by
            rw [recomputeCounts_overseas] at hres
            exact hres.2
          exact ⟨swapXI_facts hf hbkrem houts,
            swap_capOK hf.ndXi houts hguard⟩
  · rw [if_neg h0]; exact ⟨hf, hcap⟩

theorem caseAInner_facts (dfTeam : List Player) (cap : Int) :
    ∀ (n : Nat) (xi rem : List Player) (changed : Bool),
      XIfacts dfTeam xi rem →
      XIfacts dfTeam (caseAInner cap n xi rem changed).1
        (caseAInner cap n xi rem changed).2.1 := by
  intro n
  induction n with
  | zero => intro xi rem changed hf; exact hf
  | succ n ih =>
    intro xi rem changed hf
    rw [caseAInner]
    by_cases hb : (recomputeCounts xi).bowlers ≥ MIN_SPECIAL_BOWLERS
    · rw [if_pos hb]; exact hf
    · rw [if_neg hb]
      cases hsort : sortD fsKey (rem.filter isBowlerSpec) with
      | nil => exact hf
      | cons inP rest =>
        have hin : inP ∈ rem := (head_sortD_filter_mem hsort).1
        dsimp only
        cases hfind : findSwapOut (recomputeCounts xi).overseas cap inP
            (sortA fsKey (xi.filter
              (fun p => !(isBowlerSpec p) && !p.isKeeper))) with
        | none => exact hf
        | some outP =>
          have hres := findSwapOut_some hfind
          have houts : outP ∈ xi := by
            have hmem2 := (perm_sortA fsKey _).mem_iff.mp hres.1
            exact List.mem_of_mem_filter hmem2
          exact ih _ _ true (swapXI_facts hf hin houts)

theorem caseBInner_facts (dfTeam : List Player) (cap : Int) :
    ∀ (n : Nat) (xi rem : List Player) (changed : Bool),
      XIfacts dfTeam xi rem →
      XIfacts dfTeam (caseBInner cap n xi rem changed).1
        (caseBInner cap n xi rem changed).2.1 := by
  intro n
  induction n with
  | zero => intro xi rem changed hf; exact hf
  | succ n ih =>
    intro xi rem changed hf
    rw [caseBInner]
    by_cases hb : (recomputeCounts xi).bowlers ≤ MAX_SPECIAL_BOWLERS
    · rw [if_pos hb]; exact hf
    · rw [if_neg hb]
      cases hsort : sortA fsKey
          (xi.filter (fun p => isBowlerSpec p && !p.isKeeper)) with
      | nil => exact hf
      | cons outP rest =>
        have hout : outP ∈ xi := (head_sortA_filter_mem hsort).1
        dsimp only
        cases hfind : (sortD fsKey (rem.filter (fun p => !(isBowlerSpec p)))).find?
            (fun i => decide (overseasAfter (recomputeCounts xi).overseas outP i
              ≤ cap)) with
        | none => exact hf
        | some inP =>
          have hres := find?_mem_filter_sortD hfind
          exact ih _ _ true (swapXI_facts hf hres.1 hout)

theorem repairLoop_facts (dfTeam : List Player) (cap : Int) :
    ∀ (fuel : Nat) (xi rem : List Player),
      XIfacts dfTeam xi rem →
      XIfacts dfTeam (repairLoop cap fuel xi rem).1
        (repairLoop cap fuel xi rem).2 := by
  intro fuel
  induction fuel with
  | zero => intro xi rem hf; exact hf
  | succ fuel ih =>
    intro xi rem hf
    rw [repairLoop]
    by_cases h1 : (recomputeCounts xi).bowlers < MIN_SPECIAL_BOWLERS
    · rw [if_pos h1]
      by_cases h2 : (rem.filter isBowlerSpec).isEmpty
      · rw [if_pos h2]; exact hf
      · rw [if_neg h2]
        have hstep := caseAInner_facts dfTeam cap
          (MIN_SPECIAL_BOWLERS - (recomputeCounts xi).bowlers) xi rem false hf
        dsimp only
        split
        · exact ih _ _ hstep
        · exact hstep
    · rw [if_neg h1]
      by_cases h3 : (recomputeCounts xi).bowlers > MAX_SPECIAL_BOWLERS
      · rw [if_pos h3]
        by_cases h4 : (xi.filter (fun p => isBowlerSpec p && !p.isKeeper)).isEmpty
        · rw [if_pos h4]; exact hf
        · rw [if_neg h4]
          have hstep := caseBInner_facts dfTeam cap
            ((recomputeCounts xi).bowlers - MAX_SPECIAL_BOWLERS) xi rem false hf
          dsimp only
          split
          · exact ih _ _ hstep
          · exact hstep
      · rw [if_neg h3]; exact hf

theorem arRepairInner_facts (dfTeam : List Player) (cap : Int) :
    ∀ (n : Nat) (xi rem : List Player),
      XIfacts dfTeam xi rem →
      XIfacts dfTeam (arRepairInner cap n xi rem).1
        (arRepairInner cap n xi rem).2 := by
  intro n
  induction n with
  | zero => intro xi rem hf; exact hf
  | succ n ih =>
    intro xi rem hf
    rw [arRepairInner]
    by_cases hb : (recomputeCounts xi).allrounders ≥ MIN_ALLROUNDERS_IF_4
    · rw [if_pos hb]; exact hf
    · rw [if_neg hb]
      cases hsort : sortD fsKey (rem.filter isAllrounder) with
      | nil => exact hf
      | cons inP rest =>
        have hin : inP ∈ rem := (head_sortD_filter_mem hsort).1
        dsimp only
        by_cases hempty : (sortA fsKey (xi.filter
            (fun p => !(isAllrounder p) && !(isBowlerSpec p) &&
              !p.isKeeper))).isEmpty
        · rw [if_pos hempty]; exact hf
        · rw [if_neg hempty]
          cases hfind : findSwapOut (recomputeCounts xi).overseas cap inP
              (sortA fsKey (xi.filter
                (fun p => !(isAllrounder p) && !(isBowlerSpec p) &&
                  !p.isKeeper))) with
          | none => exact hf
          | some outP =>
            have hres := findSwapOut_some hfind
            have houts : outP ∈ xi := by
              have hmem2 := (perm_sortA fsKey _).mem_iff.mp hres.1
              exact List.mem_of_mem_filter hmem2
            exact ih _ _ (swapXI_facts hf hin houts)

theorem arRepair_facts (dfTeam : List Player) (cap : Int)
    (xi rem : List Player) (hf : XIfacts dfTeam xi rem) :
    XIfacts dfTeam (arRepair cap xi rem).1 (arRepair cap xi rem).2 := by
  rw [arRepair]
  split
  · exact arRepairInner_facts dfTeam cap _ xi rem hf
  · exact hf

theorem keeperFix_facts (dfTeam : List Player) (cap : Int)
    (xi rem : List Player) (hf : XIfacts dfTeam xi rem) :
    XIfacts dfTeam (keeperFix cap dfTeam xi rem).1
      (keeperFix cap dfTeam xi rem).2 := by
  rw [keeperFix]
  by_cases h0 : (recomputeCounts xi).keepers = 0
  · rw [if_pos h0]
    cases hsort : sortD fsKey (dfTeam.filter (fun p => p.isKeeper)) with
    | nil => exact hf
    | cons bk rest =>
      dsimp only
      by_cases hmem : (xi.map Player.name).contains bk.name
      · rw [if_pos hmem]; exact hf
      · rw [if_neg hmem]
        cases hfind : findSwapOut (recomputeCounts xi).overseas cap bk
            (sortA fsKey (xi.filter (fun p => !p.isKeeper))) with
        | none => exact hf
        | some outP =>
          have hres := findSwapOut_some hfind
          have houts : outP ∈ xi := by
            have hmem2 := (perm_sortA fsKey _).mem_iff.mp hres.1
            exact List.mem_of_mem_filter hmem2
          have hbkdf : bk ∈ dfTeam := (head_sortD_filter_mem hsort).1
          have hbkrem : bk ∈ rem := by
            have h1 : bk ∈ xi ++ rem := hf.perm.symm.mem_iff.mp hbkdf
            rcases List.mem_append.mp h1 with h2 | h2
            · exact absurd (List.mem_map_of_mem Player.name h2)
                (by simpa using hmem)
            · exact h2
          exact swapXI_facts hf hbkrem houts
  · rw [if_neg h0]; exact hf

/-- Two team members with the same name are the same row, given unique
names. -/
theorem name_inj {df : List Player} (hnd : (df.map Player.name).Nodup)
    {p q : Player} (hp : p ∈ df) (hq : q ∈ df) (hname : p.name = q.name) :
    p = q := by
  induction df with
  | nil => cases hp
  | cons x xs ih =>
    rw [List.map_cons] at hnd
    have hnd2 := List.nodup_cons.mp hnd
    rcases List.mem_cons.mp hp with h1 | h1 <;>
      rcases List.mem_cons.mp hq with h2 | h2
    · rw [h1, h2]
    · exact absurd (hname ▸ List.mem_map_of_mem Player.name h2)
        (h1 ▸ hnd2.1)
    · rw [h2] at hname
      exact absurd (hname ▸ List.mem_map_of_mem Player.name h1) hnd2.1
    · exact ih hnd2.2 h1 h2

/-- The seed split satisfies the name facts. -/
theorem seed_facts (dfTeam : List Player) (cap : Int)
    (hnd : (dfTeam.map Player.name).Nodup) :
    XIfacts dfTeam (seedXI dfTeam cap) (seedRem dfTeam cap) := by
  have hndXi : ((seedXI dfTeam cap).map Player.name).Nodup := by
    unfold seedXI
    refine ((perm_sortD fsKey _).map Player.name).nodup_iff.mpr ?_
    exact ((List.filter_sublist dfTeam).map Player.name).nodup hnd
  have hndRem : ((seedRem dfTeam cap).map Player.name).Nodup := by
    unfold seedRem
    exact ((List.filter_sublist dfTeam).map Player.name).nodup hnd
  refine ⟨hndXi, hndRem, ?_, ?_⟩
  · intro n hn hn2
    rcases List.mem_map.mp hn with ⟨p, hp, rfl⟩
    rcases List.mem_map.mp hn2 with ⟨q, hq, hqn⟩
    have hp2 := (perm_sortD fsKey _).mem_iff.mp hp
    have hpdf : p ∈ dfTeam := List.mem_of_mem_filter hp2
    have hpc : ((seedNames dfTeam cap).1.contains p.name) = true :=
      (List.mem_filter.mp hp2).2
    have hqdf : q ∈ dfTeam := List.mem_of_mem_filter hq
    have hqc : (!((seedNames dfTeam cap).1.contains q.name)) = true :=
      (List.mem_filter.mp hq).2
    have hpq : q = p := name_inj hnd hqdf hpdf hqn
    rw [hpq] at hqc
    rw [hpc] at hqc
    exact Bool.noConfusion hqc
  · unfold seedXI seedRem
    refine List.Perm.trans (List.Perm.append (perm_sortD fsKey _)
      (List.Perm.refl _)) ?_
    exact List.filter_append_perm _ dfTeam

/-- With unique names, filtering on one name yields exactly that row. -/
theorem filter_name_eq_singleton (df : List Player) (k : Player)
    (hnd : (df.map Player.name).Nodup) (hk : k ∈ df) :
    df.filter (fun p => p.name == k.name) = [k] := by
  induction df with
  | nil => cases hk
  | cons x xs ih =>
    rw [List.map_cons] at hnd
    have hnd2 := List.nodup_cons.mp hnd
    by_cases hxk : x = k
    · subst hxk
      have hfc : List.filter (fun p : Player => p.name == x.name) (x :: xs) =
          x :: List.filter (fun p : Player => p.name == x.name) xs := by
        simp [List.filter_cons]
      rw [hfc]
      have hrest : List.filter (fun p : Player => p.name == x.name) xs = [] := by
        refine List.filter_eq_nil_iff.mpr ?_
        intro p hp hbeq
        exact hnd2.1 ((eq_of_beq hbeq) ▸ List.mem_map_of_mem Player.name hp)
      rw [hrest]
    · have hkxs : k ∈ xs := by
        rcases List.mem_cons.mp hk with h1 | h1
        · exact absurd h1.symm hxk
        · exact h1
      have hxname : (x.name == k.name) = false := by
        refine beq_eq_false_iff_ne.mpr ?_
        intro he
        exact hnd2.1 (he ▸ List.mem_map_of_mem Player.name hkxs)
      have hfc : List.filter (fun p : Player => p.name == k.name) (x :: xs) =
          List.filter (fun p : Player => p.name == k.name) xs := by
        simp [List.filter_cons, hxname]
      rw [hfc, ih hnd2.2 hkxs]

theorem filter_contains_nil (df : List Player) :
    df.filter (fun p => (([] : List String)).contains p.name) = [] := by
  refine List.filter_eq_nil_iff.mpr ?_
  intro p _ hc
  simp at hc

/-- Appending one fresh name to the selection adds exactly the corresponding
row to the name-selected sub-team. -/
theorem countP_filter_contains_append (df : List Player) (ns : List String)
    (r : Player) (f : Player → Bool) (hnd : (df.map Player.name).Nodup)
    (hr : r ∈ df) (hnotin : ¬ r.name ∈ ns) :
    (df.filter (fun p => (ns ++ [r.name]).contains p.name)).countP f =
      (df.filter (fun p => ns.contains p.name)).countP f +
        (if f r then 1 else 0) := by
  induction df with
  | nil => cases hr
  | cons x xs ih =>
    rw [List.map_cons] at hnd
    have hnd2 := List.nodup_cons.mp hnd
    by_cases hxr : x = r
    · subst hxr
      have hfc1 : List.filter
          (fun p : Player => (ns ++ [x.name]).contains p.name) (x :: xs) =
          x :: List.filter
            (fun p : Player => (ns ++ [x.name]).contains p.name) xs := by
        simp [List.filter_cons]
      have hfc2 : List.filter (fun p : Player => ns.contains p.name) (x :: xs) =
          List.filter (fun p : Player => ns.contains p.name) xs := by
        simp [List.filter_cons, hnotin]
      have htail : List.filter
          (fun p : Player => (ns ++ [x.name]).contains p.name) xs =
          List.filter (fun p : Player => ns.contains p.name) xs := by
        refine List.filter_congr ?_
        intro p hp
        have hpne : p.name ≠ x.name := by
          intro he
          exact hnd2.1 (he ▸ List.mem_map_of_mem Player.name hp)
        simp [List.mem_append, hpne]
      rw [hfc1, hfc2, List.countP_cons, htail]
    · have hrxs : r ∈ xs := by
        rcases List.mem_cons.mp hr with h1 | h1
        · exact absurd h1.symm hxr
        · exact h1
      have hxname : x.name ≠ r.name := by
        intro he
        exact hnd2.1 (he ▸ List.mem_map_of_mem Player.name hrxs)
      by_cases hxm : x.name ∈ ns
      · have hfc1 : List.filter
            (fun p : Player => (ns ++ [r.name]).contains p.name) (x :: xs) =
            x :: List.filter
              (fun p : Player => (ns ++ [r.name]).contains p.name) xs := by
          simp [List.filter_cons, List.mem_append, hxm]
        have hfc2 : List.filter (fun p : Player => ns.contains p.name)
            (x :: xs) =
            x :: List.filter (fun p : Player => ns.contains p.name) xs := by
          simp [List.filter_cons, hxm]
        rw [hfc1, hfc2, List.countP_cons, List.countP_cons, ih hnd2.2 hrxs]
        omega
      · have hfc1 : List.filter
            (fun p : Player => (ns ++ [r.name]).contains p.name) (x :: xs) =
            List.filter
              (fun p : Player => (ns ++ [r.name]).contains p.name) xs := by
          simp [List.filter_cons, List.mem_append, hxm, hxname]
        have hfc2 : List.filter (fun p : Player => ns.contains p.name)
            (x :: xs) =
            List.filter (fun p : Player => ns.contains p.name) xs := by
          simp [List.filter_cons, hxm]
        rw [hfc1, hfc2, ih hnd2.2 hrxs]

theorem fillLoop_inv (dfTeam : List Player) (maxOverseas : Int)
    (hnd : (dfTeam.map Player.name).Nodup) :
    ∀ (l : List Player) (st : List String × Nat),
      (∀ r ∈ l, r ∈ dfTeam) → FillInv dfTeam maxOverseas st →
      FillInv dfTeam maxOverseas (fillLoop maxOverseas l st) := by
  intro l
  induction l with
  | nil => intro st _ hinv; rw [fillLoop]; exact hinv
  | cons r rs ih =>
    intro st hl hinv
    obtain ⟨ns, ov⟩ := st
    rw [fillLoop]
    by_cases h1 : ns.length ≥ 11
    · rw [if_pos h1]; exact hinv
    · rw [if_neg h1]
      by_cases h2 : r.name ∈ ns
      · rw [if_pos h2]
        exact ih _ (fun x hx => hl x (by simp [hx])) hinv
      · rw [if_neg h2]
        by_cases h3 : r.isOverseas ∧ (ov : Int) ≥ maxOverseas
        · rw [if_pos h3]
          exact ih _ (fun x hx => hl x (by simp [hx])) hinv
        · rw [if_neg h3]
          refine ih _ (fun x hx => hl x (by simp [hx])) ?_
          have hcount := countP_filter_contains_append dfTeam ns r
            (fun p => p.isOverseas) hnd (hl r (by simp)) h2
          have hi1 : ov = (dfTeam.filter
              (fun p => ns.contains p.name)).countP (fun p => p.isOverseas) :=
            hinv.1
          have hi2 : (ov : Int) ≤ maxOverseas := hinv.2
          constructor
          · show (if r.isOverseas then ov + 1 else ov) = _
            cases hov : r.isOverseas with
            | true =>
              simp only [hov, if_true] at hcount ⊢
              rw [hcount, hi1]
            | false =>
              simp only [hov, if_false, Bool.false_eq_true] at hcount ⊢
              rw [hcount, hi1]
              omega
          · show ((if r.isOverseas then ov + 1 else ov : Nat) : Int) ≤
              maxOverseas
            cases hov : r.isOverseas with
            | true =>
              have hlt : ¬ ((ov : Int) ≥ maxOverseas) := by
                intro hge
                exact h3 ⟨hov, hge⟩
              simp only [hov, if_true]
              push_cast
              omega
            | false =>
              simpa [hov] using hi2

theorem fillLoop_names_extend (maxOverseas : Int) :
    ∀ (l : List Player) (st : List String × Nat) (n : String),
      n ∈ st.1 → n ∈ (fillLoop maxOverseas l st).1 := by
  intro l
  induction l with
  | nil => intro st n hn; rw [fillLoop]; exact hn
  | cons r rs ih =>
    intro st n hn
    obtain ⟨ns, ov⟩ := st
    rw [fillLoop]
    by_cases h1 : ns.length ≥ 11
    · rw [if_pos h1]; exact hn
    · rw [if_neg h1]
      by_cases h2 : r.name ∈ ns
      · rw [if_pos h2]; exact ih _ n hn
      · rw [if_neg h2]
        by_cases h3 : r.isOverseas ∧ (ov : Int) ≥ maxOverseas
        · rw [if_pos h3]; exact ih _ n hn
        · rw [if_neg h3]
          exact ih _ n (by simp [hn])

theorem seedStart_inv (dfTeam : List Player) (maxOverseas : Int)
    (hnd : (dfTeam.map Player.name).Nodup) (hcap0 : 0 ≤ maxOverseas)
    (hkeeper : ∀ (k : Player) (rest : List Player),
      sortD fsKey (dfTeam.filter (fun p => p.isKeeper)) = k :: rest →
      k.isOverseas = false) :
    FillInv dfTeam maxOverseas (seedStart dfTeam) := by
  unfold seedStart
  cases hks : sortD fsKey (dfTeam.filter (fun p => p.isKeeper)) with
  | nil =>
    constructor
    · simp [filter_contains_nil]
    · simpa using hcap0
  | cons k krest =>
    have hkov : k.isOverseas = false := hkeeper k krest hks
    have hkdf : k ∈ dfTeam := (head_sortD_filter_mem hks).1
    have hfil : dfTeam.filter (fun p => ([k.name]).contains p.name) = [k] := by
      have hcongr : dfTeam.filter (fun p => ([k.name]).contains p.name) =
          dfTeam.filter (fun p => p.name == k.name) := by
        refine List.filter_congr ?_
        intro p _
        cases hb : (p.name == k.name) with
        | true => simp [eq_of_beq hb]
        | false => simp [beq_eq_false_iff_ne.mp hb]
      rw [hcongr]
      exact filter_name_eq_singleton dfTeam k hnd hkdf
    constructor
    · show (if k.isOverseas then 1 else 0) = _
      rw [hkov]
      simp only [hfil, List.countP_cons, List.countP_nil, hkov]
      rfl
    · show ((if k.isOverseas then 1 else 0 : Nat) : Int) ≤ maxOverseas
      rw [hkov]
      simpa using hcap0

/-- When the locked keeper is domestic (or there is no keeper), the seed XI
respects the overseas cap. -/
theorem seed_capOK (dfTeam : List Player) (maxOverseas : Int)
    (hnd : (dfTeam.map Player.name).Nodup) (hcap0 : 0 ≤ maxOverseas)
    (hkeeper : ∀ (k : Player) (rest : List Player),
      sortD fsKey (dfTeam.filter (fun p => p.isKeeper)) = k :: rest →
      k.isOverseas = false) :
    capOK maxOverseas (seedXI dfTeam maxOverseas) := by
  have hinv := fillLoop_inv dfTeam maxOverseas hnd (sortD fsKey dfTeam)
    (seedStart dfTeam)
    (fun r hr => (perm_sortD fsKey dfTeam).mem_iff.mp hr)
    (seedStart_inv dfTeam maxOverseas hnd hcap0 hkeeper)
  have hsn : seedNames dfTeam maxOverseas =
      fillLoop maxOverseas (sortD fsKey dfTeam) (seedStart dfTeam) := rfl
  unfold capOK seedXI
  rw [(perm_sortD fsKey _).countP_eq]
  rw [← hsn] at hinv
  obtain ⟨h1, h2⟩ := hinv
  rw [← h1]
  exact h2

/-- The XI returned on a nonempty team is the sorted result of the repair
pipeline applied to the seed split. -/
theorem select_starting_xi_eq (dfTeam : List Player) (pitchType : String)
    (cap : Int) (hdf : ¬ dfTeam.isEmpty = true)
    (hxi : ¬ (seedXI dfTeam cap).isEmpty = true) :
    (select_starting_xi dfTeam pitchType cap).1 =
      sortD fsKey (keeperFix cap dfTeam
        (arRepair cap
          (repairLoop cap 20 (seedXI dfTeam cap) (seedRem dfTeam cap)).1
          (repairLoop cap 20 (seedXI dfTeam cap) (seedRem dfTeam cap)).2).1
        (arRepair cap
          (repairLoop cap 20 (seedXI dfTeam cap) (seedRem dfTeam cap)).1
          (repairLoop cap 20 (seedXI dfTeam cap) (seedRem dfTeam cap)).2).2).1 := by
  unfold select_starting_xi
  rw [if_neg hdf, if_neg hxi]

/-- Name facts for the final XI of a call on a team with unique names. -/
theorem select_starting_xi_nodup (dfTeam : List Player) (pitchType : String)
    (cap : Int) (hnd : (dfTeam.map Player.name).Nodup) :
    ((select_starting_xi dfTeam pitchType cap).1.map Player.name).Nodup := by
  by_cases hdf : dfTeam.isEmpty = true
  · unfold select_starting_xi
    rw [if_pos hdf]
    simp
  · by_cases hxi : (seedXI dfTeam cap).isEmpty = true
    · unfold select_starting_xi
      rw [if_neg hdf, if_pos hxi]
      simp
    · rw [select_starting_xi_eq dfTeam pitchType cap hdf hxi]
      have hseed := seed_facts dfTeam cap hnd
      have h1 := repairLoop_facts dfTeam cap 20 _ _ hseed
      have h2 := arRepair_facts dfTeam cap _ _ h1
      have h3 := keeperFix_facts dfTeam cap _ _ h2
      exact ((perm_sortD fsKey _).map Player.name).nodup_iff.mpr h3.ndXi

/-- C4: no selection ever returns two entries with the same identity —
`(name, year)` for `select_squad` on pools with unique row keys, `Player`
name for `select_starting_xi` on teams with unique names — across all
greedy phases and repair swaps. -/
theorem claim4_unique_identities :
    (∀ (df : List Row) (year : Int) (totalPurse : ℚ)
      (squadSize maxOverseas minOverseas : Int) (rr : List (String × Int))
      (out : List Row), (df.map rowKey).Nodup →
      select_squad df year totalPurse squadSize maxOverseas minOverseas rr =
        .ok out →
      (out.map rowKey).Nodup) ∧
    (∀ (dfTeam : List Player) (pitchType : String) (cap : Int),
      (dfTeam.map Player.name).Nodup →
      ((select_starting_xi dfTeam pitchType cap).1.map Player.name).Nodup) := by
  constructor
  · intro df year totalPurse squadSize maxOverseas minOverseas rr out hnd h
    have hfin := squadFinalState_nodup df year totalPurse squadSize maxOverseas
      minOverseas rr hnd
    have hout := select_squad_ok h
    have hperm : List.Perm out (squadFinalState df year totalPurse squadSize
        maxOverseas minOverseas rr).selected := by
      rw [hout]; exact perm_sortD _ _
    exact (hperm.map rowKey).nodup_iff.mpr hfin
  · exact select_starting_xi_nodup

unseal Rat.add in
/-- Witness for C4: both selectors on concrete unique-identity pools return
duplicate-free rosters. -/
theorem claim4_unique_identities_witness :
    (([rowB, rowC, rowA]).map rowKey).Nodup ∧
    (((select_starting_xi xiPoolC8 "balanced" 0).1).map Player.name).Nodup :=
  ⟨claim4_unique_identities.1 testPool 2025 100 9 3 1 defaultRoleRequirements
    [rowB, rowC, rowA] (by decide) (except_ok_of_toOption (by decide)),
   claim4_unique_identities.2 xiPoolC8 "balanced" 0 (by decide)⟩

/-- C1 (amended): `select_squad` always keeps the overseas count within
`max_overseas`.  In `select_starting_xi` the score fill and every repair swap
respect the cap, but the locked keeper is seeded without a cap check, so the
bound holds provided the team has no keeper or its top keeper is domestic. -/
theorem claim1_amended_overseas_cap :
    (∀ (df : List Row) (year : Int) (totalPurse : ℚ)
      (squadSize maxOverseas minOverseas : Int) (rr : List (String × Int))
      (out : List Row), 0 ≤ maxOverseas →
      select_squad df year totalPurse squadSize maxOverseas minOverseas rr =
        .ok out →
      (countOvRows out : Int) ≤ maxOverseas) ∧
    (∀ (dfTeam : List Player) (pitchType : String) (cap : Int),
      (dfTeam.map Player.name).Nodup → 0 ≤ cap →
      (∀ (k : Player) (rest : List Player),
        sortD fsKey (dfTeam.filter (fun p => p.isKeeper)) = k :: rest →
        k.isOverseas = false) →
      (((select_starting_xi dfTeam pitchType cap).1.countP
        (fun p => p.isOverseas) : Nat) : Int) ≤ cap) := by
  constructor
  · exact squad_overseas_cap
  · intro dfTeam pitchType cap hnd hcap0 hkeeper
    by_cases hdf : dfTeam.isEmpty = true
    · unfold select_starting_xi
      rw [if_pos hdf]
      simpa using hcap0
    · by_cases hxi : (seedXI dfTeam cap).isEmpty = true
      · unfold select_starting_xi
        rw [if_neg hdf, if_pos hxi]
        simpa using hcap0
      · rw [select_starting_xi_eq dfTeam pitchType cap hdf hxi]
        have hseed := seed_facts dfTeam cap hnd
        have hscap := seed_capOK dfTeam cap hnd hcap0 hkeeper
        have h1 := repairLoop_pres dfTeam cap 20 _ _ hseed hscap
        have h2 := arRepair_pres dfTeam cap _ _ h1.1 h1.2
        have h3 := keeperFix_pres dfTeam cap _ _ h2.1 h2.2
        have h4 := h3.2
        unfold capOK at h4
        rw [(perm_sortD fsKey _).countP_eq]
        exact h4

unseal Rat.add in
/-- Witness for C1 (amended): both cap bounds at concrete inputs. -/
theorem claim1_amended_overseas_cap_witness :
    (countOvRows [rowB, rowC, rowA] : Int) ≤ 3 ∧
    (((select_starting_xi xiPoolC8 "balanced" 4).1.countP
      (fun p => p.isOverseas) : Nat) : Int) ≤ 4 :=
  ⟨claim1_amended_overseas_cap.1 testPool 2025 100 9 3 1
    defaultRoleRequirements [rowB, rowC, rowA] (by norm_num)
    (except_ok_of_toOption (by decide)),
   claim1_amended_overseas_cap.2 xiPoolC8 "balanced" 4 (by decide)
    (by norm_num)
    (by
      intro k rest h
      have hK : sortD fsKey (xiPoolC8.filter (fun p => p.isKeeper)) =
          [(⟨"K", "Batting", 100, true, false⟩ : Player)] := by decide
      rw [hK] at h
      rw [← (List.cons.inj h).1])⟩

/-- Counterexample for C1 as stated: with `overseas_cap = 0` and an overseas
top keeper, the seeded keeper enters the XI without a cap check, so the final
roster of `select_starting_xi` contains an overseas player (it is not 100%
domestic). -/
theorem claim1_counterexample :
    ¬ ((((select_starting_xi xiPoolC1 "balanced" 0).1.countP
      (fun p => p.isOverseas) : Nat) : Int) ≤ 0) := by
  decide

theorem recomputeCounts_allrounders (xi : List Player) :
    (recomputeCounts xi).allrounders = xi.countP isAllrounder := rfl

theorem recomputeCounts_keepers (xi : List Player) :
    (recomputeCounts xi).keepers = xi.countP (fun p => p.isKeeper) := rfl

/-- The best-scoring keeper is always part of the seed XI. -/
theorem keeper_in_seedXI (dfTeam : List Player) (cap : Int) (k : Player)
    (ks : List Player)
    (hks : sortD fsKey (dfTeam.filter (fun p => p.isKeeper)) = k :: ks) :
    k ∈ seedXI dfTeam cap := by
  have hkdf : k ∈ dfTeam := (head_sortD_filter_mem hks).1
  have hname : k.name ∈ (seedNames dfTeam cap).1 := by
    unfold seedNames
    refine fillLoop_names_extend cap _ (seedStart dfTeam) k.name ?_
    unfold seedStart
    rw [hks]
    simp
  unfold seedXI
  refine (perm_sortD fsKey _).mem_iff.mpr ?_
  refine List.mem_filter.mpr ⟨hkdf, ?_⟩
  simpa using hname

/-- C8: when the seed XI holds exactly 4 specialist bowlers and exactly 1
allrounder, the bench has a best unused allrounder, the XI has a weakest pure
batter (not bowler, not allrounder, not keeper), and swapping the two keeps
the overseas count within the cap, `select_starting_xi` returns a final XI
with at least 2 allrounders while the specialist-bowler count remains 4. -/
theorem claim8_allrounder_repair (dfTeam : List Player) (pitchType : String)
    (cap : Int) (hnd : (dfTeam.map Player.name).Nodup)
    (inP outP : Player) (benchRest outsRest : List Player)
    (hb : (seedXI dfTeam cap).countP isBowlerSpec = 4)
    (ha : (seedXI dfTeam cap).countP isAllrounder = 1)
    (hbench : sortD fsKey ((seedRem dfTeam cap).filter isAllrounder) =
      inP :: benchRest)
    (houts : sortA fsKey ((seedXI dfTeam cap).filter
      (fun p => !(isAllrounder p) && !(isBowlerSpec p) && !p.isKeeper)) =
      outP :: outsRest)
    (hcap : overseasAfter ((seedXI dfTeam cap).countP
      (fun p => p.isOverseas)) outP inP ≤ cap) :
    2 ≤ (select_starting_xi dfTeam pitchType cap).1.countP isAllrounder ∧
    (select_starting_xi dfTeam pitchType cap).1.countP isBowlerSpec = 4 := by
  have hxi0ne : seedXI dfTeam cap ≠ [] := by
    intro he
    rw [he] at hb
    simp at hb
  have hdfne : ¬ dfTeam.isEmpty = true := by
    intro he
    rw [List.isEmpty_iff.mp he] at hxi0ne
    exact hxi0ne rfl
  have hxiE : ¬ (seedXI dfTeam cap).isEmpty = true := by
    intro he
    exact hxi0ne (List.isEmpty_iff.mp he)
  have hin2 := head_sortD_filter_mem hbench
  have hout2 := head_sortA_filter_mem houts
  have hinAR : isAllrounder inP = true := hin2.2
  have houtflags : isAllrounder outP = false ∧ isBowlerSpec outP = false ∧
      outP.isKeeper = false := by
    have h2 := hout2.2
    simp only [Bool.and_eq_true, Bool.not_eq_true'] at h2
    exact ⟨h2.1.1, h2.1.2, h2.2⟩
  have hinBowl : isBowlerSpec inP = false := by
    have hrole : playerRole inP = "All rounder" := by
      have h2 := hinAR
      unfold isAllrounder at h2
      exact eq_of_beq h2
    unfold isBowlerSpec
    rw [hrole]
    rfl
  have hndxi0 : ((seedXI dfTeam cap).map Player.name).Nodup :=
    (seed_facts dfTeam cap hnd).ndXi
  have hrl : repairLoop cap 20 (seedXI dfTeam cap) (seedRem dfTeam cap) =
      (seedXI dfTeam cap, seedRem dfTeam cap) := by
    rw [show (20 : Nat) = 19 + 1 from rfl, repairLoop]
    have hc1 : ¬ ((recomputeCounts (seedXI dfTeam cap)).bowlers <
        MIN_SPECIAL_BOWLERS) := by
      rw [recomputeCounts_bowlers, hb]
      decide
    have hc2 : ¬ ((recomputeCounts (seedXI dfTeam cap)).bowlers >
        MAX_SPECIAL_BOWLERS) := by
      rw [recomputeCounts_bowlers, hb]
      decide
    rw [if_neg hc1, if_neg hc2]
  have hfind : findSwapOut (recomputeCounts (seedXI dfTeam cap)).overseas cap
      inP (outP :: outsRest) = some outP := by
    unfold findSwapOut
    refine List.find?_cons_of_pos _ ?_
    rw [recomputeCounts_overseas]
    exact decide_eq_true hcap
  have har : arRepair cap (seedXI dfTeam cap) (seedRem dfTeam cap) =
      swapXI (seedXI dfTeam cap) (seedRem dfTeam cap) inP outP := by
    rw [arRepair]
    have hcond : (recomputeCounts (seedXI dfTeam cap)).bowlers =
        MIN_SPECIAL_BOWLERS ∧
        (recomputeCounts (seedXI dfTeam cap)).allrounders <
          MIN_ALLROUNDERS_IF_4 := by
      constructor
      · rw [recomputeCounts_bowlers, hb]
        rfl
      · rw [recomputeCounts_allrounders, ha]
        decide

    rw [if_pos hcond]
    have hneed : MIN_ALLROUNDERS_IF_4 -
        (recomputeCounts (seedXI dfTeam cap)).allrounders = 1 := by
      rw [recomputeCounts_allrounders, ha]
      rfl
    rw [hneed, show (1 : Nat) = 0 + 1 from rfl, arRepairInner]
    have hc3 : ¬ ((recomputeCounts (seedXI dfTeam cap)).allrounders ≥
        MIN_ALLROUNDERS_IF_4) := by
      rw [recomputeCounts_allrounders, ha]
      decide
    rw [if_neg hc3, hbench]
    dsimp only
    rw [houts]
    have hne : ¬ ((outP :: outsRest).isEmpty = true) := by simp
    rw [if_neg hne, hfind]
    rfl
  have hARcount := swapXI_countP isAllrounder (seedXI dfTeam cap)
    (seedRem dfTeam cap) inP outP hndxi0 hout2.1
  have hBowlcount := swapXI_countP isBowlerSpec (seedXI dfTeam cap)
    (seedRem dfTeam cap) inP outP hndxi0 hout2.1
  have hkfix : keeperFix cap dfTeam
      (swapXI (seedXI dfTeam cap) (seedRem dfTeam cap) inP outP).1
      (swapXI (seedXI dfTeam cap) (seedRem dfTeam cap) inP outP).2 =
      ((swapXI (seedXI dfTeam cap) (seedRem dfTeam cap) inP outP).1,
       (swapXI (seedXI dfTeam cap) (seedRem dfTeam cap) inP outP).2) := by
    cases hks : sortD fsKey (dfTeam.filter (fun p => p.isKeeper)) with
    | nil =>
      rw [keeperFix]
      by_cases h0 : (recomputeCounts
          (swapXI (seedXI dfTeam cap) (seedRem dfTeam cap) inP outP).1).keepers
          = 0
      · rw [if_pos h0, hks]
      · rw [if_neg h0]
    | cons k ks =>
      have hkxi0 : k ∈ seedXI dfTeam cap := keeper_in_seedXI dfTeam cap k ks hks
      have hk1 : 0 < (seedXI dfTeam cap).countP (fun p => p.isKeeper) :=
        List.countP_pos_iff.mpr ⟨k, hkxi0, (head_sortD_filter_mem hks).2⟩
      have hkc := swapXI_countP (fun p => p.isKeeper) (seedXI dfTeam cap)
        (seedRem dfTeam cap) inP outP hndxi0 hout2.1
      have hkeepers : (recomputeCounts
          (swapXI (seedXI dfTeam cap) (seedRem dfTeam cap) inP outP).1).keepers
          ≠ 0 := by
        rw [recomputeCounts_keepers]
        by_cases hik : inP.isKeeper <;>
          simp [houtflags.2.2, hik] at hkc <;> omega
      rw [keeperFix, if_neg hkeepers]
  have hgoal := select_starting_xi_eq dfTeam pitchType cap hdfne hxiE
  rw [hgoal, hrl]
  dsimp only
  rw [har, hkfix]
  dsimp only
  constructor
  · rw [(perm_sortD fsKey _).countP_eq]
    rw [houtflags.1, hinAR] at hARcount
    simp only [Bool.false_eq_true, if_false, if_true] at hARcount
    omega
  · rw [(perm_sortD fsKey _).countP_eq]
    rw [houtflags.2.1, hinBowl] at hBowlcount
    simp only [Bool.false_eq_true, if_false] at hBowlcount
    omega

/-- Witness for C8 on the concrete 13-player team: the bench allrounder A2
replaces the weakest pure batter T5; the final XI has 2 allrounders and still
4 specialist bowlers. -/
theorem claim8_allrounder_repair_witness :
    2 ≤ (select_starting_xi xiPoolC8 "balanced" 4).1.countP isAllrounder ∧
    (select_starting_xi xiPoolC8 "balanced" 4).1.countP isBowlerSpec = 4 :=
  claim8_allrounder_repair xiPoolC8 "balanced" 4 (by decide)
    ⟨"A2", "All rounder", 50, false, false⟩
    ⟨"T5", "Batting", 81, false, false⟩
    []
    [⟨"T4", "Batting", 82, false, false⟩, ⟨"T3", "Batting", 83, false, false⟩,
     ⟨"T2", "Batting", 84, false, false⟩, ⟨"T1", "Batting", 85, false, false⟩]
    (by decide) (by decide) (by decide) (by decide) (by decide)

end AuctionSpec
